import Mathlib

set_option maxRecDepth 100000

/-!
Verification of the Simplex engine in `src/Simplex.py`
(canonical maximization: max cᵀx subject to A x ≤ b, x ≥ 0, b ≥ 0).

The Python source works with floating-point numbers; the shallow embedding
below uses exact rationals (ℚ) for the same operations, keeping the two
numeric tolerances that appear verbatim in the source:
`1e-12` (entering / eligibility / tie tests) and `1e-9` (the default
`eps` of `approx_zero`, used to skip elimination of small factors).
The Python driver loop `while True` has no termination guarantee, so the
embedded loop takes explicit fuel and returns `none` when the fuel runs
out; a run of the Python function that returns corresponds to a fuel
value large enough, and a diverging run returns `none` for every fuel.
-/

abbrev Vec := List ℚ

abbrev Mat := List Vec

/-- The tolerance `1e-12` used for the entering test, eligibility test and
ratio ties in `simplex_max` and `argmin_with_ties`. -/
def eps : ℚ := 1 / 10 ^ 12

/-- The tolerance `1e-9`, default `eps` argument of `approx_zero`. -/
def zeps : ℚ := 1 / 10 ^ 9

/-- `approx_zero` from the source: `abs(x) <= eps` with the default
`eps = 1e-9` (the only way the source ever calls it). -/
def approx_zero (x : ℚ) : Bool := decide (|x| ≤ zeps)

/-- `SimplexResult` from the source: status is one of the strings
`"optimal"`, `"unbounded"`, `"infeasible"`. -/
structure SimplexResult where
  status : String
  z_opt : Option ℚ
  x_opt : Option (List ℚ)
  iterations : ℕ
  message : String
deriving DecidableEq, Repr

/-- `v < best_val - 1e-12` where `best_val = math.inf` when the
accumulator is still empty (every finite `v` beats infinity). -/
def beatsBest (v : ℚ) : Option (ℕ × ℚ) → Bool
  | none => true
  | some b => decide (v < b.2 - eps)

/-- The accumulator loop of `argmin_with_ties`: `k` is the index of the
element under examination, the accumulator holds `(best_idx, best_val)`
(`none` plays the role of `best_idx = None, best_val = math.inf`). -/
def argminAux : List (ℚ × Bool) → ℕ → Option (ℕ × ℚ) → Option ℕ
  | [], _, acc => acc.map Prod.fst
  | q :: t, k, acc =>
    if q.2 && beatsBest q.1 acc then
      argminAux t (k + 1) (some (k, q.1))
    else
      argminAux t (k + 1) acc

/-- `argmin_with_ties(values, eligible)` from the source: index of the
minimum among the eligible entries, an entry only displacing the current
best when it is smaller by more than `1e-12`; `None` when no entry is
eligible. -/
def argmin_with_ties (values : List ℚ) (eligible : List Bool) : Option ℕ :=
  argminAux (values.zip eligible) 0 none

/-- The loop state of `simplex_max`: the `m` constraint rows of the
tableau, the objective row (`tableau[-1]`), the list `basis`, and the
value of the `iterations` counter. -/
structure LoopState where
  rows : Mat
  zrow : Vec
  basis : List ℕ
  iterations : ℕ
deriving DecidableEq, Repr

/-- `[j for j, val in enumerate(z[:-1]) if val < -1e-12]`: the candidate
entering columns (Bland's rule candidates). -/
def enteringCandidates (z : Vec) : List ℕ :=
  ((z.dropLast).enum.filter (fun q => decide (q.2 < -eps))).map Prod.fst

/-- The entering-column choice of `simplex_max`: `None` when no candidate
exists (optimality), otherwise `min(entering_candidates)`. -/
def selectEntering (z : Vec) : Option ℕ :=
  (enteringCandidates z).min?

/-- The `ratios` list built by `simplex_max` for the minimum-ratio test:
`tableau[i][-1] / col_val` when `col_val > 1e-12`.  For an ineligible row
the Python source stores `math.inf`, a value that is never read because
the matching `eligibles` flag is `False`; ℚ has no infinity, so `0` is
stored in that (dead) position instead. -/
def ratiosOf (rows : Mat) (entering : ℕ) : List ℚ :=
  rows.map (fun row =>
    if (row.getD entering 0) > eps then (row.getLastD 0) / (row.getD entering 0) else 0)

/-- The `eligibles` list built by `simplex_max`: `col_val > 1e-12`. -/
def eligiblesOf (rows : Mat) (entering : ℕ) : List Bool :=
  rows.map (fun row => decide ((row.getD entering 0) > eps))

/-- The leaving-row choice of `simplex_max`:
`argmin_with_ties(ratios, eligibles)`. -/
def selectLeaving (rows : Mat) (entering : ℕ) : Option ℕ :=
  argmin_with_ties (ratiosOf rows entering) (eligiblesOf rows entering)

/-- One Gauss–Jordan elimination of the entering column from `row` using
the normalized pivot row: `factor = row[entering]`; the row is returned
unchanged when `approx_zero(factor)`, otherwise
`[vi - factor * vj for vi, vj in zip(row, newProw)]`. -/
def elimRow (entering : ℕ) (newProw row : Vec) : Vec :=
  let factor := row.getD entering 0
  if approx_zero factor then row
  else List.zipWith (fun vi vj => vi - factor * vj) row newProw

/-- `tableau[leaving] = [v / pivot for v in tableau[leaving]]` — the
pivot row divided by the pivot value. -/
def normRow (prow : Vec) (p : ℚ) : Vec := prow.map (fun v => v / p)

/-- The pivot of `simplex_max` at `(leaving, entering)`: normalize the
pivot row by the pivot value `tableau[leaving][entering]`, eliminate the
entering column from every other row (constraint rows and objective row),
set `basis[leaving] = entering`.  The `iterations` field is managed by
`loopStep`, not here. -/
def doPivot (st : LoopState) (entering leaving : ℕ) : LoopState :=
  ⟨st.rows.enum.map (fun q =>
      if q.1 = leaving then
        normRow (st.rows.getD leaving []) ((st.rows.getD leaving []).getD entering 0)
      else
        elimRow entering
          (normRow (st.rows.getD leaving []) ((st.rows.getD leaving []).getD entering 0))
          q.2),
   elimRow entering
     (normRow (st.rows.getD leaving []) ((st.rows.getD leaving []).getD entering 0))
     st.zrow,
   st.basis.set leaving entering,
   st.iterations⟩

/-- `x = [0.0]*n; for i, basic_var in enumerate(basis): if basic_var < n:
x[basic_var] = tableau[i][-1]` — extraction of the optimal point
(original variables only). -/
def extractX (n : ℕ) (rows : Mat) (basis : List ℕ) : List ℚ :=
  basis.enum.foldl
    (fun x q => if q.2 < n then x.set q.2 ((rows.getD q.1 []).getLastD 0) else x)
    (List.replicate n 0)

/-- The outcome of one iteration of the `while True` loop. -/
inductive StepOut where
  | done : SimplexResult → StepOut
  | next : LoopState → StepOut
deriving DecidableEq, Repr

/-- One iteration of the `while True` loop of `simplex_max`: increment
`iterations`, select the entering column (returning the optimal result
when there is none), select the leaving row (returning the unbounded
result when there is none), otherwise pivot. -/
def loopStep (n : ℕ) (st : LoopState) : StepOut :=
  match selectEntering st.zrow with
  | none =>
      .done ⟨"optimal", some (st.zrow.getLastD 0), some (extractX n st.rows st.basis),
             st.iterations + 1, "Óptimo encontrado."⟩
  | some entering =>
      match selectLeaving st.rows entering with
      | none =>
          .done ⟨"unbounded", none, none, st.iterations + 1,
                 "La función objetivo puede crecer indefinidamente (no acotado)."⟩
      | some leaving =>
          .next ⟨(doPivot st entering leaving).rows, (doPivot st entering leaving).zrow,
                 (doPivot st entering leaving).basis, st.iterations + 1⟩

/-- The `while True` loop with explicit fuel (`none` = still running
after `fuel` iterations, mirroring possible non-termination). -/
def simplexLoop (n : ℕ) : LoopState → ℕ → Option SimplexResult
  | _, 0 => none
  | st, fuel + 1 =>
      match loopStep n st with
      | .done r => some r
      | .next st2 => simplexLoop n st2 fuel

/-- `simplexLoop` instrumented with a count of the pivots performed
(the number of `.next` steps taken before termination). -/
def simplexLoopCount (n : ℕ) : LoopState → ℕ → ℕ → Option (SimplexResult × ℕ)
  | _, _, 0 => none
  | st, pivots, fuel + 1 =>
      match loopStep n st with
      | .done r => some (r, pivots)
      | .next st2 => simplexLoopCount n st2 (pivots + 1) fuel

/-- The validation prefix of `simplex_max` (lines 37–52): `some result`
when a shape or sign check fails, `none` when the input is accepted. -/
def validate (A : Mat) (b c : List ℚ) : Option SimplexResult :=
  if A = [] ∨ A.headD [] = [] then
    some ⟨"infeasible", none, none, 0, "Matrices vacías."⟩
  else if A.any (fun row => row.length ≠ (A.headD []).length) then
    some ⟨"infeasible", none, none, 0, "Filas de A con distinta longitud."⟩
  else if b.length ≠ A.length then
    some ⟨"infeasible", none, none, 0, "Dimensión de b no coincide con A."⟩
  else if c.length ≠ (A.headD []).length then
    some ⟨"infeasible", none, none, 0, "Dimensión de c no coincide con A."⟩
  else if b.any (fun bi => decide (bi < -eps)) then
    some ⟨"infeasible", none, none, 0,
          "Este solver asume b >= 0 para base de holguras factible."⟩
  else
    none

/-- The initial tableau and basis of `simplex_max`: constraint row `i` is
`A[i] + [0]*m + [b[i]]` with slack column `n+i` set to `1`, the objective
row is `[-c, 0...0, 0]`, the initial basis is the slacks `[n, …, n+m-1]`,
and `iterations = 0`. -/
def initState (A : Mat) (b c : List ℚ) : LoopState :=
  ⟨(List.range A.length).map (fun i =>
      ((A.getD i []) ++ (List.replicate A.length (0 : ℚ)) ++ [b.getD i 0]).set
        ((A.headD []).length + i) 1),
   (c.map (fun ci => -ci)) ++ (List.replicate A.length (0 : ℚ)) ++ [(0 : ℚ)],
   (List.range A.length).map (fun i => (A.headD []).length + i),
   0⟩

/-- `simplex_max(A, b, c, show_steps)` from the source, with fuel for the
driver loop.  `show_steps` only controls the `print_tableau` diagnostic
output in Python and has no effect on the computed result. -/
def simplex_max (A : Mat) (b c : List ℚ) (show_steps : Bool) (fuel : ℕ) :
    Option SimplexResult :=
  match validate A b c with
  | some r => some r
  | none => simplexLoop (A.headD []).length (initState A b c) fuel

/-- `simplex_max` together with the number of pivots performed. -/
def simplex_max_count (A : Mat) (b c : List ℚ) (show_steps : Bool) (fuel : ℕ) :
    Option (SimplexResult × ℕ) :=
  match validate A b c with
  | some r => some (r, 0)
  | none => simplexLoopCount (A.headD []).length (initState A b c) 0 fuel

/-- Dot product of two rational vectors (used to state the optimality
certificate `cᵀx* = z*`). -/
def dot (u v : List ℚ) : ℚ :=
  (List.zipWith (fun a b => a * b) u v).sum

/-- Modelled from the spec (§4.4): the leaving rule as the specification
words it — "the leaving row is the eligible row with the strictly
smallest ratio …; the first such row encountered in row order wins ties"
with comparisons within the tolerance ε.  This is the first eligible row
whose ratio is within ε of every eligible ratio. -/
def specLeavingRow (ratios : List ℚ) (eligible : List Bool) : Option ℕ :=
  (List.range ratios.length).find? (fun i =>
    eligible.getD i false &&
      (List.range ratios.length).all (fun j =>
        !(eligible.getD j false) || decide (ratios.getD i 0 ≤ ratios.getD j 0 + eps)))

/-! ### Basic list access lemmas -/

theorem getD_map_lt {α β : Type} (l : List α) (f : α → β) (i : ℕ) (d : β) (d' : α)
    (h : i < l.length) : (l.map f).getD i d = f (l.getD i d') := by
  simp [List.getD_eq_getElem?_getD, List.getElem?_map, List.getElem?_eq_getElem h]

theorem getD_zipWith_lt {α β γ : Type} (f : α → β → γ) (l₁ : List α) (l₂ : List β)
    (i : ℕ) (d : γ) (d₁ : α) (d₂ : β) (h₁ : i < l₁.length) (h₂ : i < l₂.length) :
    (List.zipWith f l₁ l₂).getD i d = f (l₁.getD i d₁) (l₂.getD i d₂) := by
  simp [List.getD_eq_getElem?_getD, List.getElem?_zipWith,
    List.getElem?_eq_getElem h₁, List.getElem?_eq_getElem h₂]

theorem getD_set_self {α : Type} (l : List α) (i : ℕ) (a : α) (d : α)
    (h : i < l.length) : (l.set i a).getD i d = a := by
  simp [List.getD_eq_getElem?_getD, List.getElem?_set, h]

theorem getD_set_ne {α : Type} (l : List α) (i j : ℕ) (a : α) (d : α)
    (h : i ≠ j) : (l.set i a).getD j d = l.getD j d := by
  simp [List.getD_eq_getElem?_getD, List.getElem?_set, h]

theorem getD_enum_map_lt {α β : Type} (l : List α) (f : ℕ × α → β) (i : ℕ) (d : β)
    (d' : α) (h : i < l.length) : (l.enum.map f).getD i d = f (i, l.getD i d') := by
  simp [List.getD_eq_getElem?_getD, List.getElem?_map, List.getElem?_enum,
    List.getElem?_eq_getElem h]

theorem length_enum_map {α β : Type} (l : List α) (f : ℕ × α → β) :
    (l.enum.map f).length = l.length := by
  simp [List.enum_length]

theorem getD_zip_lt {α β : Type} (l₁ : List α) (l₂ : List β) (i : ℕ) (d₁ : α) (d₂ : β)
    (h₁ : i < l₁.length) (h₂ : i < l₂.length) :
    (l₁.zip l₂).getD i (d₁, d₂) = (l₁.getD i d₁, l₂.getD i d₂) := by
  simpa using getD_zipWith_lt Prod.mk l₁ l₂ i (d₁, d₂) d₁ d₂ h₁ h₂

theorem getD_dropLast_lt {α : Type} (l : List α) (i : ℕ) (d : α)
    (h : i < l.length - 1) : l.dropLast.getD i d = l.getD i d := by
  rw [List.getD_eq_getElem?_getD, List.getD_eq_getElem?_getD, List.getElem?_dropLast,
    if_pos h]

theorem getLastD_cons_eval {α : Type} (a : α) (l : List α) (d : α) :
    (a :: l).getLastD d = l.getLastD a := by
  cases l <;> simp [List.getLastD]

theorem getLastD_nil_eval {α : Type} (d : α) : ([] : List α).getLastD d = d := rfl

/-! ### Characterization of `argmin_with_ties`

The sequential fold in `argmin_with_ties` keeps the current best and only
replaces it when an eligible value is smaller by more than `eps`.  The
returned index is therefore eligible, *strictly* smaller in value than
every earlier eligible entry, and within `eps` of every later eligible
entry — but it is not necessarily the exact minimizer, nor the first
entry within `eps` of the minimum. -/

theorem argminAux_spec (l : List (ℚ × Bool)) :
    ∀ (k : ℕ) (acc : Option (ℕ × ℚ)) (i : ℕ), argminAux l k acc = some i →
    (∃ bv, acc = some (i, bv) ∧ ∀ q ∈ l, q.2 = true → bv ≤ q.1 + eps) ∨
    (∃ pos, pos < l.length ∧ i = k + pos ∧ (l.getD pos (0, false)).2 = true ∧
      (∀ q < pos, (l.getD q (0, false)).2 = true →
        (l.getD pos (0, false)).1 < (l.getD q (0, false)).1) ∧
      (∀ q, pos < q → q < l.length → (l.getD q (0, false)).2 = true →
        (l.getD pos (0, false)).1 ≤ (l.getD q (0, false)).1 + eps) ∧
      (∀ bi bv, acc = some (bi, bv) → (l.getD pos (0, false)).1 < bv - eps)) := by
  have heps : (0:ℚ) < eps := by norm_num [eps]
  induction l with
  | nil =>
      intro k acc i h
      left
      cases acc with
      | none => simp [argminAux] at h
      | some q =>
          have h1 : q.1 = i := by simpa [argminAux] using h
          refine ⟨q.2, ?_, by simp⟩
          rw [← h1]
  | cons hd t ih =>
      intro k acc i h
      rw [argminAux] at h
      by_cases hc : (hd.2 && beatsBest hd.1 acc) = true
      · rw [if_pos hc] at h
        have hc2 := hc
        simp only [Bool.and_eq_true] at hc2
        have hok : hd.2 = true := hc2.1
        have hbeat : ∀ bi bv, acc = some (bi, bv) → hd.1 < bv - eps := by
          intro bi bv hacc
          have h2 := hc2.2
          rw [hacc] at h2
          simpa [beatsBest] using h2
        rcases ih (k + 1) (some (k, hd.1)) i h with ⟨bv, hacc, hall⟩ |
          ⟨pos, hpos, hi, helig, hearlier, hlater, haccb⟩
        · -- the head displaced the accumulator and remained best to the end
          right
          have h1 : (k, hd.1) = (i, bv) := Option.some.inj hacc
          have hk : k = i := congrArg Prod.fst h1
          have hv : hd.1 = bv := congrArg Prod.snd h1
          refine ⟨0, by simp, by omega, by simpa using hok, ?_, ?_, ?_⟩
          · intro q hq _
            omega
          · intro q hq1 hq2 hqe
            cases q with
            | zero => omega
            | succ q2 =>
                simp only [List.getD_cons_zero, List.getD_cons_succ] at hqe ⊢
                have hq3 : q2 < t.length := by
                  simp only [List.length_cons] at hq2
                  omega
                have hmem : t.getD q2 (0, false) ∈ t := by
                  rw [List.getD_eq_getElem t (0, false) hq3]
                  exact List.getElem_mem hq3
                have h4 := hall _ hmem hqe
                rw [hv]
                exact h4
          · intro bi bv2 hacc2
            simpa using hbeat bi bv2 hacc2
        · -- the final best lies in the tail
          right
          refine ⟨pos + 1, by simpa using hpos, by omega, by simpa using helig, ?_, ?_, ?_⟩
          · intro q hq hqe
            cases q with
            | zero =>
                simp only [List.getD_cons_succ, List.getD_cons_zero] at hqe ⊢
                have h5 := haccb k hd.1 rfl
                linarith
            | succ q2 =>
                simp only [List.getD_cons_succ] at hqe ⊢
                exact hearlier q2 (by omega) hqe
          · intro q hq1 hq2 hqe
            cases q with
            | zero => omega
            | succ q2 =>
                simp only [List.getD_cons_succ] at hqe ⊢
                simp only [List.length_cons] at hq2
                exact hlater q2 (by omega) (by omega) hqe
          · intro bi bv hacc2
            have h1 := haccb k hd.1 rfl
            have h2 : hd.1 < bv - eps := hbeat bi bv hacc2
            simp only [List.getD_cons_succ]
            linarith
      · rw [if_neg hc] at h
        have hfail : hd.2 = true → ∀ bi bv, acc = some (bi, bv) → bv - eps ≤ hd.1 := by
          intro hok bi bv hacc
          subst hacc
          by_contra hlt
          push_neg at hlt
          exact hc (by simp [hok, beatsBest, hlt])
        rcases ih (k + 1) acc i h with ⟨bv, hacc, hall⟩ |
          ⟨pos, hpos, hi, helig, hearlier, hlater, haccb⟩
        · left
          refine ⟨bv, hacc, ?_⟩
          intro q hq hqe
          rcases List.mem_cons.mp hq with hq | hq
          · subst hq
            have h6 := hfail hqe i bv hacc
            linarith
          · exact hall q hq hqe
        · right
          refine ⟨pos + 1, by simpa using hpos, by omega, by simpa using helig, ?_, ?_, ?_⟩
          · intro q hq hqe
            cases q with
            | zero =>
                simp only [List.getD_cons_zero, List.getD_cons_succ] at hqe ⊢
                -- an eligible head that failed to displace the best implies acc exists
                cases acc with
                | none => exact absurd (by simp [hqe, beatsBest]) hc
                | some b =>
                    have h1 := hfail hqe b.1 b.2 rfl
                    have h2 := haccb b.1 b.2 rfl
                    linarith
            | succ q2 =>
                simp only [List.getD_cons_succ] at hqe ⊢
                exact hearlier q2 (by omega) hqe
          · intro q hq1 hq2 hqe
            cases q with
            | zero => omega
            | succ q2 =>
                simp only [List.getD_cons_succ] at hqe ⊢
                simp only [List.length_cons] at hq2
                exact hlater q2 (by omega) (by omega) hqe
          · intro bi bv hacc2
            simp only [List.getD_cons_succ]
            exact haccb bi bv hacc2

/-! ### Characterization of the entering-column rule (Bland) -/

theorem mem_enteringCandidates (z : Vec) (j : ℕ) :
    j ∈ enteringCandidates z ↔ j < z.length - 1 ∧ z.getD j 0 < -eps := by
  unfold enteringCandidates
  constructor
  · intro hj
    obtain ⟨q, hq, hqj⟩ := List.mem_map.mp hj
    obtain ⟨hq1, hq2⟩ := List.mem_filter.mp hq
    obtain ⟨idx, hidx⟩ := List.mem_iff_getElem?.mp hq1
    rw [List.getElem?_enum] at hidx
    cases hv : z.dropLast[idx]? with
    | none => rw [hv] at hidx; simp at hidx
    | some v =>
        rw [hv] at hidx
        have hidx2 : some (idx, v) = some q := hidx
        have hqv : q = (idx, v) := (Option.some.inj hidx2).symm
        subst hqv
        obtain rfl : idx = j := hqj
        have hlen : idx < z.dropLast.length := (List.getElem?_eq_some_iff.mp hv).1
        rw [List.length_dropLast] at hlen
        refine ⟨hlen, ?_⟩
        have hval : z.dropLast.getD idx 0 = v := by
          rw [List.getD_eq_getElem?_getD, hv]
          rfl
        rw [← getD_dropLast_lt z idx 0 hlen, hval]
        simpa using hq2
  · rintro ⟨hlen, hval⟩
    have hlen2 : j < z.length := by omega
    have hv : z.dropLast[j]? = some (z.getD j 0) := by
      rw [List.getElem?_dropLast, if_pos hlen, List.getElem?_eq_getElem hlen2,
        List.getD_eq_getElem z 0 hlen2]
    refine List.mem_map.mpr ⟨(j, z.getD j 0), List.mem_filter.mpr ⟨?_, by simpa using hval⟩, rfl⟩
    refine List.mem_iff_getElem?.mpr ⟨j, ?_⟩
    rw [List.getElem?_enum, hv]
    rfl

theorem selectEntering_eq_some (z : Vec) (j : ℕ) :
    selectEntering z = some j ↔
      j < z.length - 1 ∧ z.getD j 0 < -eps ∧ ∀ k < j, ¬(z.getD k 0 < -eps) := by
  unfold selectEntering
  rw [List.min?_eq_some_iff (fun a => Nat.le_refl a) (fun a b => min_choice a b)
    (fun a b c => le_min_iff)]
  constructor
  · rintro ⟨hmem, hleast⟩
    obtain ⟨h1, h2⟩ := (mem_enteringCandidates z j).mp hmem
    refine ⟨h1, h2, ?_⟩
    intro k hk hbad
    have hk2 : k ∈ enteringCandidates z :=
      (mem_enteringCandidates z k).mpr ⟨by omega, hbad⟩
    exact absurd (hleast k hk2) (by omega)
  · rintro ⟨h1, h2, h3⟩
    refine ⟨(mem_enteringCandidates z j).mpr ⟨h1, h2⟩, ?_⟩
    intro b hb
    obtain ⟨hb1, hb2⟩ := (mem_enteringCandidates z b).mp hb
    by_contra hlt
    exact h3 b (by omega) hb2

theorem selectEntering_eq_none (z : Vec) :
    selectEntering z = none ↔ ∀ j < z.length - 1, ¬(z.getD j 0 < -eps) := by
  unfold selectEntering
  rw [List.min?_eq_none_iff, List.eq_nil_iff_forall_not_mem]
  constructor
  · intro h j hj hbad
    exact h j ((mem_enteringCandidates z j).mpr ⟨hj, hbad⟩)
  · intro h j hj
    obtain ⟨h1, h2⟩ := (mem_enteringCandidates z j).mp hj
    exact h j h1 h2

/-! ### Characterization of the leaving-row rule (minimum ratio test) -/

theorem argmin_with_ties_spec (vals : List ℚ) (elig : List Bool) (i : ℕ)
    (h : argmin_with_ties vals elig = some i) :
    i < vals.length ∧ i < elig.length ∧ elig.getD i false = true ∧
    ∀ j, j < vals.length → j < elig.length → elig.getD j false = true →
      (j < i → vals.getD i 0 < vals.getD j 0) ∧
      vals.getD i 0 ≤ vals.getD j 0 + eps := by
  have heps : (0:ℚ) < eps := by norm_num [eps]
  unfold argmin_with_ties at h
  rcases argminAux_spec _ 0 none i h with ⟨bv, hacc, _⟩ |
    ⟨pos, hpos, hi, helig, hearlier, hlater, _⟩
  · exact absurd hacc (by simp)
  · have hip : i = pos := by omega
    subst hip
    rw [List.length_zip] at hpos
    have hv : i < vals.length := lt_of_lt_of_le hpos (min_le_left _ _)
    have he : i < elig.length := lt_of_lt_of_le hpos (min_le_right _ _)
    have hzip : ∀ q, q < vals.length → q < elig.length →
        (vals.zip elig).getD q (0, false) = (vals.getD q 0, elig.getD q false) := by
      intro q h1 h2
      exact getD_zip_lt vals elig q 0 false h1 h2
    rw [hzip i hv he] at helig
    refine ⟨hv, he, helig, ?_⟩
    intro j hj1 hj2 hje
    have hjlen : j < (vals.zip elig).length := by
      rw [List.length_zip]
      exact lt_min hj1 hj2
    rcases Nat.lt_trichotomy j i with hlt | heq | hgt
    · have h4 := hearlier j hlt (by rw [hzip j hj1 hj2]; exact hje)
      rw [hzip i hv he, hzip j hj1 hj2] at h4
      have h5 : vals.getD i 0 ≤ vals.getD j 0 + eps := by linarith
      exact ⟨fun _ => h4, h5⟩
    · subst heq
      exact ⟨by omega, by linarith⟩
    · have h4 := hlater j hgt hjlen (by rw [hzip j hj1 hj2]; exact hje)
      rw [hzip i hv he, hzip j hj1 hj2] at h4
      exact ⟨by omega, h4⟩

theorem length_ratiosOf (rows : Mat) (e : ℕ) : (ratiosOf rows e).length = rows.length := by
  simp [ratiosOf]

theorem length_eligiblesOf (rows : Mat) (e : ℕ) :
    (eligiblesOf rows e).length = rows.length := by
  simp [eligiblesOf]

theorem eligiblesOf_getD (rows : Mat) (e : ℕ) (i : ℕ) (hi : i < rows.length) :
    (eligiblesOf rows e).getD i false = decide ((rows.getD i []).getD e 0 > eps) := by
  unfold eligiblesOf
  exact getD_map_lt rows _ i false [] hi

theorem ratiosOf_getD (rows : Mat) (e : ℕ) (i : ℕ) (hi : i < rows.length)
    (helig : (rows.getD i []).getD e 0 > eps) :
    (ratiosOf rows e).getD i 0 =
      (rows.getD i []).getLastD 0 / (rows.getD i []).getD e 0 := by
  unfold ratiosOf
  rw [getD_map_lt rows _ i 0 [] hi, if_pos helig]

theorem selectLeaving_spec (rows : Mat) (e : ℕ) (i : ℕ)
    (h : selectLeaving rows e = some i) :
    i < rows.length ∧ (rows.getD i []).getD e 0 > eps ∧
    ∀ j, j < rows.length → (rows.getD j []).getD e 0 > eps →
      (j < i → (ratiosOf rows e).getD i 0 < (ratiosOf rows e).getD j 0) ∧
      (ratiosOf rows e).getD i 0 ≤ (ratiosOf rows e).getD j 0 + eps := by
  unfold selectLeaving at h
  obtain ⟨h1, h2, h3, h4⟩ := argmin_with_ties_spec _ _ i h
  rw [length_ratiosOf] at h1
  rw [eligiblesOf_getD rows e i h1] at h3
  refine ⟨h1, of_decide_eq_true h3, ?_⟩
  intro j hj hje
  exact h4 j (by rwa [length_ratiosOf]) (by rwa [length_eligiblesOf])
    (by rw [eligiblesOf_getD rows e j hj]; exact decide_eq_true hje)

/-! ### Structure of one loop iteration -/

theorem loopStep_optimal (n : ℕ) (st : LoopState) (h : selectEntering st.zrow = none) :
    loopStep n st = .done ⟨"optimal", some (st.zrow.getLastD 0),
      some (extractX n st.rows st.basis), st.iterations + 1, "Óptimo encontrado."⟩ := by
  unfold loopStep
  rw [h]

theorem loopStep_unbounded (n : ℕ) (st : LoopState) (e : ℕ)
    (h1 : selectEntering st.zrow = some e) (h2 : selectLeaving st.rows e = none) :
    loopStep n st = .done ⟨"unbounded", none, none, st.iterations + 1,
      "La función objetivo puede crecer indefinidamente (no acotado)."⟩ := by
  simp only [loopStep, h1, h2]

theorem loopStep_pivot (n : ℕ) (st : LoopState) (e l : ℕ)
    (h1 : selectEntering st.zrow = some e) (h2 : selectLeaving st.rows e = some l) :
    loopStep n st = .next ⟨(doPivot st e l).rows, (doPivot st e l).zrow,
      (doPivot st e l).basis, st.iterations + 1⟩ := by
  simp only [loopStep, h1, h2]

theorem loopStep_done_iterations (n : ℕ) (st : LoopState) (r : SimplexResult)
    (h : loopStep n st = .done r) : r.iterations = st.iterations + 1 := by
  cases h1 : selectEntering st.zrow with
  | none =>
      rw [loopStep_optimal n st h1] at h
      cases h
      rfl
  | some e =>
      cases h2 : selectLeaving st.rows e with
      | none =>
          rw [loopStep_unbounded n st e h1 h2] at h
          cases h
          rfl
      | some l =>
          rw [loopStep_pivot n st e l h1 h2] at h
          cases h

theorem loopStep_next_iterations (n : ℕ) (st st2 : LoopState)
    (h : loopStep n st = .next st2) : st2.iterations = st.iterations + 1 := by
  cases h1 : selectEntering st.zrow with
  | none =>
      rw [loopStep_optimal n st h1] at h
      cases h
  | some e =>
      cases h2 : selectLeaving st.rows e with
      | none =>
          rw [loopStep_unbounded n st e h1 h2] at h
          cases h
      | some l =>
          rw [loopStep_pivot n st e l h1 h2] at h
          cases h
          rfl

theorem loopStep_done_optimal_entering (n : ℕ) (st : LoopState) (r : SimplexResult)
    (h : loopStep n st = .done r) (hst : r.status = "optimal") :
    selectEntering st.zrow = none := by
  cases h1 : selectEntering st.zrow with
  | none => rfl
  | some e =>
      cases h2 : selectLeaving st.rows e with
      | none =>
          rw [loopStep_unbounded n st e h1 h2] at h
          cases h
          have hst2 : "unbounded" = "optimal" := hst
          exact absurd hst2 (by decide)
      | some l =>
          rw [loopStep_pivot n st e l h1 h2] at h
          cases h

/-! ### The driver loop -/

theorem simplexLoop_done (n : ℕ) (st : LoopState) (fuel : ℕ) (r : SimplexResult)
    (h : simplexLoop n st fuel = some r) : ∃ st2, loopStep n st2 = .done r := by
  induction fuel generalizing st with
  | zero => simp [simplexLoop] at h
  | succ f ih =>
      rw [simplexLoop] at h
      cases h2 : loopStep n st with
      | done r2 =>
          rw [h2] at h
          cases h
          exact ⟨st, h2⟩
      | next st2 =>
          rw [h2] at h
          exact ih st2 h

theorem simplexLoopCount_spec (n : ℕ) (fuel : ℕ) (st : LoopState) (p : ℕ)
    (r : SimplexResult) (q : ℕ) (h : simplexLoopCount n st p fuel = some (r, q)) :
    p ≤ q ∧ r.iterations + p = st.iterations + 1 + q := by
  induction fuel generalizing st p with
  | zero => simp [simplexLoopCount] at h
  | succ f ih =>
      rw [simplexLoopCount] at h
      cases h2 : loopStep n st with
      | done r2 =>
          rw [h2] at h
          have h3 : (r2, p) = (r, q) := Option.some.inj h
          obtain ⟨h4, h5⟩ : r2 = r ∧ p = q := ⟨congrArg Prod.fst h3, congrArg Prod.snd h3⟩
          subst h4
          subst h5
          have h6 := loopStep_done_iterations n st _ h2
          omega
      | next st2 =>
          rw [h2] at h
          obtain ⟨hpq, hit⟩ := ih st2 (p + 1) h
          have h3 := loopStep_next_iterations n st st2 h2
          omega

theorem simplexLoop_count_link (n : ℕ) (fuel : ℕ) (st : LoopState) (p : ℕ)
    (r : SimplexResult) (h : simplexLoop n st fuel = some r) :
    ∃ q, simplexLoopCount n st p fuel = some (r, q) ∧ p ≤ q := by
  induction fuel generalizing st p with
  | zero => simp [simplexLoop] at h
  | succ f ih =>
      rw [simplexLoop] at h
      rw [simplexLoopCount]
      cases h2 : loopStep n st with
      | done r2 =>
          rw [h2] at h
          cases h
          exact ⟨p, rfl, Nat.le_refl p⟩
      | next st2 =>
          rw [h2] at h
          obtain ⟨q, hq, hpq⟩ := ih st2 (p + 1) h
          exact ⟨q, hq, by omega⟩

/-! ### The result extraction fold -/

def extractFold (n : ℕ) (rhs : ℕ → ℚ) (l : List (ℕ × ℕ)) (x0 : List ℚ) : List ℚ :=
  l.foldl (fun x q => if q.2 < n then x.set q.2 (rhs q.1) else x) x0

theorem extractX_eq (n : ℕ) (rows : Mat) (basis : List ℕ) :
    extractX n rows basis =
      extractFold n (fun i => (rows.getD i []).getLastD 0) basis.enum
        (List.replicate n 0) := rfl

theorem extractFold_length (n : ℕ) (rhs : ℕ → ℚ) (l : List (ℕ × ℕ)) :
    ∀ x0 : List ℚ, (extractFold n rhs l x0).length = x0.length := by
  induction l with
  | nil => intro x0; rfl
  | cons q t ih =>
      intro x0
      show (extractFold n rhs t (if q.2 < n then x0.set q.2 (rhs q.1) else x0)).length =
        x0.length
      rw [ih]
      by_cases hq : q.2 < n
      · rw [if_pos hq, List.length_set]
      · rw [if_neg hq]

theorem extractFold_getD_not_mem (n : ℕ) (rhs : ℕ → ℚ) (l : List (ℕ × ℕ)) :
    ∀ (x0 : List ℚ) (v : ℕ), (∀ q ∈ l, q.2 ≠ v) →
      (extractFold n rhs l x0).getD v 0 = x0.getD v 0 := by
  induction l with
  | nil => intro x0 v _; rfl
  | cons q t ih =>
      intro x0 v hnm
      show (extractFold n rhs t (if q.2 < n then x0.set q.2 (rhs q.1) else x0)).getD v 0 =
        x0.getD v 0
      rw [ih _ v (fun p hp => hnm p (List.mem_cons_of_mem q hp))]
      by_cases hq : q.2 < n
      · rw [if_pos hq, getD_set_ne _ _ _ _ _ (hnm q (List.mem_cons_self q t))]
      · rw [if_neg hq]

theorem extractFold_getD_mem (n : ℕ) (rhs : ℕ → ℚ) (l : List (ℕ × ℕ)) :
    ∀ (x0 : List ℚ) (i v : ℕ), (i, v) ∈ l → v < n → v < x0.length →
      (l.map Prod.snd).Nodup →
      (extractFold n rhs l x0).getD v 0 = rhs i := by
  induction l with
  | nil => intro x0 i v hm; simp at hm
  | cons q t ih =>
      intro x0 i v hm hvn hvl hnd
      rw [List.map_cons, List.nodup_cons] at hnd
      rcases List.mem_cons.mp hm with hm | hm
      · have hq : q = (i, v) := hm.symm
        subst hq
        show (extractFold n rhs t (if v < n then x0.set v (rhs i) else x0)).getD v 0 = rhs i
        rw [if_pos hvn]
        rw [extractFold_getD_not_mem n rhs t _ v ?hnm]
        · exact getD_set_self x0 v (rhs i) 0 hvl
        case hnm =>
          intro p hp hpv
          have hmem2 : v ∈ t.map Prod.snd := by
            rw [← hpv]
            exact List.mem_map_of_mem Prod.snd hp
          exact hnd.1 hmem2
      · show (extractFold n rhs t (if q.2 < n then x0.set q.2 (rhs q.1) else x0)).getD v 0 =
          rhs i
        apply ih _ i v hm hvn ?_ hnd.2
        by_cases hq : q.2 < n
        · rw [if_pos hq, List.length_set]
          exact hvl
        · rw [if_neg hq]
          exact hvl

theorem mem_enum_getD (l : List ℕ) (i : ℕ) (hi : i < l.length) :
    (i, l.getD i 0) ∈ l.enum := by
  refine List.mem_iff_getElem?.mpr ⟨i, ?_⟩
  rw [List.getElem?_enum, List.getElem?_eq_getElem hi, List.getD_eq_getElem l 0 hi]
  rfl

theorem mem_of_mem_enum_snd {α : Type} {q : ℕ × α} {l : List α} (h : q ∈ l.enum) :
    q.2 ∈ l := by
  have h2 := List.mem_map_of_mem Prod.snd h
  rwa [List.enum_map_snd] at h2

theorem extractX_length (n : ℕ) (rows : Mat) (basis : List ℕ) :
    (extractX n rows basis).length = n := by
  rw [extractX_eq, extractFold_length, List.length_replicate]

theorem extractX_getD_basic (n : ℕ) (rows : Mat) (basis : List ℕ)
    (hnd : basis.Nodup) (i : ℕ) (hi : i < basis.length) (hb : basis.getD i 0 < n) :
    (extractX n rows basis).getD (basis.getD i 0) 0 = (rows.getD i []).getLastD 0 := by
  rw [extractX_eq]
  apply extractFold_getD_mem
  · exact mem_enum_getD basis i hi
  · exact hb
  · rw [List.length_replicate]
    exact hb
  · rw [List.enum_map_snd]
    exact hnd

theorem extractX_getD_nonbasic (n : ℕ) (rows : Mat) (basis : List ℕ) (v : ℕ)
    (hnb : v ∉ basis) : (extractX n rows basis).getD v 0 = 0 := by
  rw [extractX_eq, extractFold_getD_not_mem]
  · rw [List.getD_eq_getElem?_getD, List.getElem?_replicate]
    by_cases hv : v < n
    · rw [if_pos hv]
      rfl
    · rw [if_neg hv]
      rfl
  · intro q hq hqv
    exact hnb (hqv ▸ mem_of_mem_enum_snd hq)

/-! ### The basic-column invariant and the pivot -/

theorem eps_pos : (0:ℚ) < eps := by norm_num [eps]

theorem zeps_pos : (0:ℚ) < zeps := by norm_num [zeps]

theorem getD_mem_of_lt {α : Type} (l : List α) (i : ℕ) (d : α) (h : i < l.length) :
    l.getD i d ∈ l := by
  rw [List.getD_eq_getElem l d h]
  exact List.getElem_mem h

theorem normRow_length (prow : Vec) (p : ℚ) : (normRow prow p).length = prow.length := by
  simp [normRow]

theorem normRow_getD (prow : Vec) (p : ℚ) (col : ℕ) (h : col < prow.length) :
    (normRow prow p).getD col 0 = prow.getD col 0 / p := by
  unfold normRow
  exact getD_map_lt prow _ col 0 0 h

theorem elimRow_getD (e : ℕ) (npr row : Vec) (col : ℕ) (hcol : col < row.length)
    (hlen : col < npr.length) :
    (elimRow e npr row).getD col 0 =
      if approx_zero (row.getD e 0) then row.getD col 0
      else row.getD col 0 - (row.getD e 0) * (npr.getD col 0) := by
  unfold elimRow
  by_cases hz : approx_zero (row.getD e 0) = true
  · rw [if_pos hz, if_pos hz]
  · rw [if_neg hz, if_neg hz]
    exact getD_zipWith_lt _ row npr col 0 0 0 hcol hlen

theorem doPivot_rows_getD (st : LoopState) (e l : ℕ) (j : ℕ) (hj : j < st.rows.length) :
    (doPivot st e l).rows.getD j [] =
      if j = l then normRow (st.rows.getD l []) ((st.rows.getD l []).getD e 0)
      else elimRow e (normRow (st.rows.getD l []) ((st.rows.getD l []).getD e 0))
        (st.rows.getD j []) := by
  show ((st.rows.enum.map _).getD j []) = _
  rw [getD_enum_map_lt st.rows _ j [] [] hj]

theorem doPivot_rows_length (st : LoopState) (e l : ℕ) :
    (doPivot st e l).rows.length = st.rows.length :=
  length_enum_map _ _

theorem doPivot_zrow (st : LoopState) (e l : ℕ) :
    (doPivot st e l).zrow =
      elimRow e (normRow (st.rows.getD l []) ((st.rows.getD l []).getD e 0)) st.zrow := rfl

theorem doPivot_basis (st : LoopState) (e l : ℕ) :
    (doPivot st e l).basis = st.basis.set l e := rfl

/-- Well-formedness of a loop state with row width `W = n + m + 1`: every
tableau row (and the objective row) has `W` entries, the basis has one
entry per constraint row, and each basic index denotes a non-RHS column. -/
def wfState (W : ℕ) (st : LoopState) : Prop :=
  (∀ row ∈ st.rows, row.length = W) ∧ st.zrow.length = W ∧
  st.basis.length = st.rows.length ∧ ∀ bv ∈ st.basis, bv < W - 1

/-- The exact unit-column invariant from the spec: for each constraint row
`i` the column `basis[i]` holds `1` in row `i` and `0` in every other row,
the objective row included. -/
def colIsUnitExact (st : LoopState) : Prop :=
  ∀ i < st.basis.length,
    (st.rows.getD i []).getD (st.basis.getD i 0) 0 = 1 ∧
    (∀ j < st.rows.length, j ≠ i → (st.rows.getD j []).getD (st.basis.getD i 0) 0 = 0) ∧
    st.zrow.getD (st.basis.getD i 0) 0 = 0

/-- The relaxed unit-column invariant actually restored by the pivot of
`simplex_max`: `1` on the diagonal, and off-diagonal entries bounded by
the `1e-9` threshold of `approx_zero` (an elimination is skipped whenever
its factor is that small, so the entry need not be `0`). -/
def colIsUnitNear (st : LoopState) : Prop :=
  ∀ i < st.basis.length,
    (st.rows.getD i []).getD (st.basis.getD i 0) 0 = 1 ∧
    (∀ j < st.rows.length, j ≠ i →
      |(st.rows.getD j []).getD (st.basis.getD i 0) 0| ≤ zeps) ∧
    |st.zrow.getD (st.basis.getD i 0) 0| ≤ zeps

instance (W : ℕ) (st : LoopState) : Decidable (wfState W st) := by
  unfold wfState
  infer_instance

instance (st : LoopState) : Decidable (colIsUnitExact st) := by
  unfold colIsUnitExact
  infer_instance

instance (st : LoopState) : Decidable (colIsUnitNear st) := by
  unfold colIsUnitNear
  infer_instance

theorem wfState_rowlen {W : ℕ} {st : LoopState} (hwf : wfState W st) (j : ℕ)
    (hj : j < st.rows.length) : (st.rows.getD j []).length = W :=
  hwf.1 _ (getD_mem_of_lt st.rows j [] hj)

/-- C6 (amended): one pivot of `simplex_max` (normalize the leaving row
by the pivot value, subtract `factor ×` the normalized row from every
other row including the objective row, set `basis[leaving] = entering`),
started from a tableau satisfying the exact unit-column invariant,
restores the invariant only up to the `1e-9` `approx_zero` threshold:
afterwards each basic column has `1` in its own row and entries of
magnitude at most `1e-9` elsewhere (objective row included), the
elimination being skipped exactly when `|factor| ≤ 1e-9`.  (The exact
invariant of the original claim fails: see the counterexample.) -/
theorem doPivot_colIsUnitNear (W n : ℕ) (st st2 : LoopState) (e l : ℕ)
    (hwf : wfState W st) (hex : colIsUnitExact st)
    (hse : selectEntering st.zrow = some e) (hsl : selectLeaving st.rows e = some l)
    (hstep : loopStep n st = .next st2) :
    st2.rows = (doPivot st e l).rows ∧ st2.zrow = (doPivot st e l).zrow ∧
    st2.basis = st.basis.set l e ∧ colIsUnitNear st2 := by
  rw [loopStep_pivot n st e l hse hsl] at hstep
  have h7 := StepOut.next.inj hstep
  subst h7
  refine ⟨rfl, rfl, rfl, ?_⟩
  -- abbreviations and basic facts
  have hWz : st.zrow.length = W := hwf.2.1
  have hbl : st.basis.length = st.rows.length := hwf.2.2.1
  obtain ⟨he1, he2, -⟩ := (selectEntering_eq_some st.zrow e).mp hse
  rw [hWz] at he1
  obtain ⟨hl1, hp, -⟩ := selectLeaving_spec st.rows e l hsl
  have heW : e < W := by omega
  have hplen : (st.rows.getD l []).length = W := wfState_rowlen hwf l hl1
  have hp0 : (st.rows.getD l []).getD e 0 ≠ 0 := by
    have := eps_pos
    intro hc
    rw [hc] at hp
    linarith
  have hnprlen : (normRow (st.rows.getD l []) ((st.rows.getD l []).getD e 0)).length = W := by
    rw [normRow_length, hplen]
  have hnpre : (normRow (st.rows.getD l []) ((st.rows.getD l []).getD e 0)).getD e 0 = 1 := by
    rw [normRow_getD _ _ e (by omega)]
    exact div_self hp0
  have hbne : ∀ i < st.basis.length, st.basis.getD i 0 ≠ e := by
    intro i hi hc
    have hz := (hex i hi).2.2
    rw [hc] at hz
    rw [hz] at he2
    have := eps_pos
    linarith
  -- the invariant for the new state
  intro i hi
  have hi2 : i < st.basis.length := by
    simpa [doPivot_basis, List.length_set] using hi
  have hi3 : i < st.rows.length := by omega
  have hlb : l < st.basis.length := by omega
  have hrl : ∀ j < st.rows.length,
      (doPivot st e l).rows.length = st.rows.length := fun _ _ => doPivot_rows_length st e l
  by_cases hil : i = l
  · -- the new basic column of the leaving row is the entering column
    subst hil
    have hbc : (doPivot st e i).basis.getD i 0 = e := by
      rw [doPivot_basis]
      exact getD_set_self st.basis i e 0 hlb
    rw [hbc]
    refine ⟨?_, ?_, ?_⟩
    · rw [doPivot_rows_getD st e i i hi3, if_pos rfl]
      exact hnpre
    · intro j hj hji
      rw [doPivot_rows_length] at hj
      rw [doPivot_rows_getD st e i j hj, if_neg hji]
      have hrowj : (st.rows.getD j []).length = W := wfState_rowlen hwf j hj
      rw [elimRow_getD e _ _ e (by omega) (by omega)]
      by_cases hz : approx_zero ((st.rows.getD j []).getD e 0) = true
      · rw [if_pos hz]
        exact of_decide_eq_true hz
      · rw [if_neg hz, hnpre]
        have := zeps_pos
        simp only [mul_one, sub_self, abs_zero]
        linarith
    · rw [doPivot_zrow]
      rw [elimRow_getD e _ _ e (by omega) (by omega)]
      by_cases hz : approx_zero (st.zrow.getD e 0) = true
      · rw [if_pos hz]
        exact of_decide_eq_true hz
      · rw [if_neg hz, hnpre]
        have := zeps_pos
        simp only [mul_one, sub_self, abs_zero]
        linarith
  · -- an old basic column, untouched by the elimination
    have hbc : (doPivot st e l).basis.getD i 0 = st.basis.getD i 0 := by
      rw [doPivot_basis]
      exact getD_set_ne st.basis l i e 0 (fun hc => hil (hc.symm))
    rw [hbc]
    obtain ⟨hdiag, hoff, hzc⟩ := hex i hi2
    have hbcW : st.basis.getD i 0 < W - 1 :=
      hwf.2.2.2 _ (getD_mem_of_lt st.basis i 0 hi2)
    have hbcW2 : st.basis.getD i 0 < W := by omega
    have hnprbc :
        (normRow (st.rows.getD l []) ((st.rows.getD l []).getD e 0)).getD
          (st.basis.getD i 0) 0 = 0 := by
      rw [normRow_getD _ _ _ (by omega)]
      rw [hoff l hl1 (fun hc => hil (hc.symm))]
      exact zero_div _
    refine ⟨?_, ?_, ?_⟩
    · rw [doPivot_rows_getD st e l i hi3, if_neg hil]
      have hrowi : (st.rows.getD i []).length = W := wfState_rowlen hwf i hi3
      rw [elimRow_getD e _ _ _ (by omega) (by omega)]
      by_cases hz : approx_zero ((st.rows.getD i []).getD e 0) = true
      · rw [if_pos hz]
        exact hdiag
      · rw [if_neg hz, hnprbc, hdiag]
        ring
    · intro j hj hji
      rw [doPivot_rows_length] at hj
      rw [doPivot_rows_getD st e l j hj]
      by_cases hjl : j = l
      · rw [if_pos hjl, hnprbc, abs_zero]
        exact le_of_lt zeps_pos
      · rw [if_neg hjl]
        have hrowj : (st.rows.getD j []).length = W := wfState_rowlen hwf j hj
        rw [elimRow_getD e _ _ _ (by omega) (by omega)]
        by_cases hz : approx_zero ((st.rows.getD j []).getD e 0) = true
        · rw [if_pos hz, hoff j hj hji, abs_zero]
          exact le_of_lt zeps_pos
        · rw [if_neg hz, hnprbc, hoff j hj hji]
          simp only [mul_zero, sub_zero, abs_zero]
          exact le_of_lt zeps_pos
    · rw [doPivot_zrow]
      rw [elimRow_getD e _ _ _ (by omega) (by omega)]
      by_cases hz : approx_zero (st.zrow.getD e 0) = true
      · rw [if_pos hz, hzc, abs_zero]
        exact le_of_lt zeps_pos
      · rw [if_neg hz, hnprbc, hzc]
        simp only [mul_zero, sub_zero, abs_zero]
        exact le_of_lt zeps_pos

/-! ### Structure of `simplex_max` -/

theorem simplex_max_of_validate_some (A : Mat) (b c : List ℚ) (r : SimplexResult)
    (h : validate A b c = some r) (s : Bool) (fuel : ℕ) :
    simplex_max A b c s fuel = some r := by
  unfold simplex_max
  rw [h]

theorem simplex_max_of_validate_none (A : Mat) (b c : List ℚ)
    (h : validate A b c = none) (s : Bool) (fuel : ℕ) :
    simplex_max A b c s fuel = simplexLoop (A.headD []).length (initState A b c) fuel := by
  unfold simplex_max
  rw [h]

theorem simplex_max_count_of_validate_none (A : Mat) (b c : List ℚ)
    (h : validate A b c = none) (s : Bool) (fuel : ℕ) :
    simplex_max_count A b c s fuel =
      simplexLoopCount (A.headD []).length (initState A b c) 0 fuel := by
  unfold simplex_max_count
  rw [h]

theorem validate_some_status (A : Mat) (b c : List ℚ) (r : SimplexResult)
    (h : validate A b c = some r) : r.status = "infeasible" ∧ r.iterations = 0 := by
  unfold validate at h
  repeat' split at h
  all_goals first
    | (cases h; exact ⟨rfl, rfl⟩)
    | (cases h)

theorem initState_zrow (A : Mat) (b c : List ℚ) :
    (initState A b c).zrow =
      (c.map (fun ci => -ci)) ++ (List.replicate A.length (0 : ℚ)) ++ [(0 : ℚ)] := rfl

theorem initState_iterations (A : Mat) (b c : List ℚ) :
    (initState A b c).iterations = 0 := rfl

theorem initState_entering_none (A : Mat) (b c : List ℚ) (hc : ∀ ci ∈ c, ci ≤ 0) :
    selectEntering (initState A b c).zrow = none := by
  rw [selectEntering_eq_none]
  intro j hj hbad
  have hjl : j < (initState A b c).zrow.length := by omega
  have hmem := getD_mem_of_lt (initState A b c).zrow j 0 hjl
  rw [initState_zrow] at hmem hbad
  have hep := eps_pos
  rcases List.mem_append.mp hmem with hm | hm
  · rcases List.mem_append.mp hm with hm2 | hm2
    · obtain ⟨ci, hci, hv⟩ := List.mem_map.mp hm2
      have h1 := hc ci hci
      rw [← hv] at hbad
      linarith
    · have h0 := List.eq_of_mem_replicate hm2
      rw [h0] at hbad
      linarith
  · have h0 := List.mem_singleton.mp hm
    rw [h0] at hbad
    linarith

/-! ### Closed evaluation facts

The `Rat` arithmetic of this toolchain is `@[irreducible]`, so concrete
runs of the solver are evaluated by rewriting with the defining
equations and `norm_num`, not by kernel reduction. -/

theorem scenarioA_run :
    simplex_max [[2,1],[1,2]] [8,8] [3,5] false 3 =
      some ⟨"optimal", some (64/3), some [8/3, 8/3], 3, "Óptimo encontrado."⟩ := by
  norm_num [simplex_max, simplex_max_count, validate, initState, simplexLoop,
    simplexLoopCount, loopStep, selectEntering, enteringCandidates, selectLeaving,
    ratiosOf, eligiblesOf, argmin_with_ties, argminAux, beatsBest, doPivot, normRow,
    elimRow, extractX, approx_zero, eps, zeps, dot, specLeavingRow,
    List.enum, List.enumFrom_cons, List.min?, List.replicate_succ, List.set_cons_zero,
    List.set_cons_succ, List.getD_cons_zero, List.getD_cons_succ, decide_eq_true_eq,
    List.dropLast, List.filter_cons, List.foldl_cons, List.foldl_nil, Nat.min_def,
    List.zipWith_cons_cons, getLastD_cons_eval, getLastD_nil_eval, List.getElem?_cons_zero,
    List.getElem?_cons_succ, Option.getD_some, Option.getD_none, abs_le, List.cons_ne_nil,
    List.range_succ, List.range_zero, Function.comp, List.find?, List.all_cons, List.all_nil,
    Bool.and_eq_true, Bool.or_eq_true, Bool.not_eq_true',
    -List.getLastD_eq_getLast?]
  all_goals rfl

theorem scenarioA_final_entering :
    selectEntering [0, 0, 1/3, 7/3, (64/3 : ℚ)] = none := by
  norm_num [simplex_max, simplex_max_count, validate, initState, simplexLoop,
    simplexLoopCount, loopStep, selectEntering, enteringCandidates, selectLeaving,
    ratiosOf, eligiblesOf, argmin_with_ties, argminAux, beatsBest, doPivot, normRow,
    elimRow, extractX, approx_zero, eps, zeps, dot, specLeavingRow,
    List.enum, List.enumFrom_cons, List.min?, List.replicate_succ, List.set_cons_zero,
    List.set_cons_succ, List.getD_cons_zero, List.getD_cons_succ, decide_eq_true_eq,
    List.dropLast, List.filter_cons, List.foldl_cons, List.foldl_nil, Nat.min_def,
    List.zipWith_cons_cons, getLastD_cons_eval, getLastD_nil_eval, List.getElem?_cons_zero,
    List.getElem?_cons_succ, Option.getD_some, Option.getD_none, abs_le, List.cons_ne_nil,
    List.range_succ, List.range_zero, Function.comp, List.find?, List.all_cons, List.all_nil,
    Bool.and_eq_true, Bool.or_eq_true, Bool.not_eq_true',
    -List.getLastD_eq_getLast?]
  all_goals rfl

theorem scenarioA_first_leaving :
    selectLeaving [[2,1,1,0,8],[1,2,0,1,8]] 0 = some 0 := by
  norm_num [simplex_max, simplex_max_count, validate, initState, simplexLoop,
    simplexLoopCount, loopStep, selectEntering, enteringCandidates, selectLeaving,
    ratiosOf, eligiblesOf, argmin_with_ties, argminAux, beatsBest, doPivot, normRow,
    elimRow, extractX, approx_zero, eps, zeps, dot, specLeavingRow,
    List.enum, List.enumFrom_cons, List.min?, List.replicate_succ, List.set_cons_zero,
    List.set_cons_succ, List.getD_cons_zero, List.getD_cons_succ, decide_eq_true_eq,
    List.dropLast, List.filter_cons, List.foldl_cons, List.foldl_nil, Nat.min_def,
    List.zipWith_cons_cons, getLastD_cons_eval, getLastD_nil_eval, List.getElem?_cons_zero,
    List.getElem?_cons_succ, Option.getD_some, Option.getD_none, abs_le, List.cons_ne_nil,
    List.range_succ, List.range_zero, Function.comp, List.find?, List.all_cons, List.all_nil,
    Bool.and_eq_true, Bool.or_eq_true, Bool.not_eq_true',
    -List.getLastD_eq_getLast?]
  all_goals rfl

theorem scenarioB_run_count :
    simplex_max_count [[1,-1]] [10] [1,1] false 5 =
      some (⟨"unbounded", none, none, 2,
        "La función objetivo puede crecer indefinidamente (no acotado)."⟩, 1) := by
  norm_num [simplex_max, simplex_max_count, validate, initState, simplexLoop,
    simplexLoopCount, loopStep, selectEntering, enteringCandidates, selectLeaving,
    ratiosOf, eligiblesOf, argmin_with_ties, argminAux, beatsBest, doPivot, normRow,
    elimRow, extractX, approx_zero, eps, zeps, dot, specLeavingRow,
    List.enum, List.enumFrom_cons, List.min?, List.replicate_succ, List.set_cons_zero,
    List.set_cons_succ, List.getD_cons_zero, List.getD_cons_succ, decide_eq_true_eq,
    List.dropLast, List.filter_cons, List.foldl_cons, List.foldl_nil, Nat.min_def,
    List.zipWith_cons_cons, getLastD_cons_eval, getLastD_nil_eval, List.getElem?_cons_zero,
    List.getElem?_cons_succ, Option.getD_some, Option.getD_none, abs_le, List.cons_ne_nil,
    List.range_succ, List.range_zero, Function.comp, List.find?, List.all_cons, List.all_nil,
    Bool.and_eq_true, Bool.or_eq_true, Bool.not_eq_true',
    -List.getLastD_eq_getLast?]
  all_goals rfl

theorem scenarioB_first_entering :
    selectEntering (initState [[1,-1]] [10] [1,1]).zrow = some 0 := by
  norm_num [simplex_max, simplex_max_count, validate, initState, simplexLoop,
    simplexLoopCount, loopStep, selectEntering, enteringCandidates, selectLeaving,
    ratiosOf, eligiblesOf, argmin_with_ties, argminAux, beatsBest, doPivot, normRow,
    elimRow, extractX, approx_zero, eps, zeps, dot, specLeavingRow,
    List.enum, List.enumFrom_cons, List.min?, List.replicate_succ, List.set_cons_zero,
    List.set_cons_succ, List.getD_cons_zero, List.getD_cons_succ, decide_eq_true_eq,
    List.dropLast, List.filter_cons, List.foldl_cons, List.foldl_nil, Nat.min_def,
    List.zipWith_cons_cons, getLastD_cons_eval, getLastD_nil_eval, List.getElem?_cons_zero,
    List.getElem?_cons_succ, Option.getD_some, Option.getD_none, abs_le, List.cons_ne_nil,
    List.range_succ, List.range_zero, Function.comp, List.find?, List.all_cons, List.all_nil,
    Bool.and_eq_true, Bool.or_eq_true, Bool.not_eq_true',
    -List.getLastD_eq_getLast?]
  all_goals rfl

theorem scenarioB_second_entering :
    selectEntering [0, -2, 1, (10 : ℚ)] = some 1 := by
  norm_num [simplex_max, simplex_max_count, validate, initState, simplexLoop,
    simplexLoopCount, loopStep, selectEntering, enteringCandidates, selectLeaving,
    ratiosOf, eligiblesOf, argmin_with_ties, argminAux, beatsBest, doPivot, normRow,
    elimRow, extractX, approx_zero, eps, zeps, dot, specLeavingRow,
    List.enum, List.enumFrom_cons, List.min?, List.replicate_succ, List.set_cons_zero,
    List.set_cons_succ, List.getD_cons_zero, List.getD_cons_succ, decide_eq_true_eq,
    List.dropLast, List.filter_cons, List.foldl_cons, List.foldl_nil, Nat.min_def,
    List.zipWith_cons_cons, getLastD_cons_eval, getLastD_nil_eval, List.getElem?_cons_zero,
    List.getElem?_cons_succ, Option.getD_some, Option.getD_none, abs_le, List.cons_ne_nil,
    List.range_succ, List.range_zero, Function.comp, List.find?, List.all_cons, List.all_nil,
    Bool.and_eq_true, Bool.or_eq_true, Bool.not_eq_true',
    -List.getLastD_eq_getLast?]
  all_goals rfl

theorem scenarioB_second_leaving :
    selectLeaving [[1,-1,1,(10:ℚ)]] 1 = none := by
  norm_num [simplex_max, simplex_max_count, validate, initState, simplexLoop,
    simplexLoopCount, loopStep, selectEntering, enteringCandidates, selectLeaving,
    ratiosOf, eligiblesOf, argmin_with_ties, argminAux, beatsBest, doPivot, normRow,
    elimRow, extractX, approx_zero, eps, zeps, dot, specLeavingRow,
    List.enum, List.enumFrom_cons, List.min?, List.replicate_succ, List.set_cons_zero,
    List.set_cons_succ, List.getD_cons_zero, List.getD_cons_succ, decide_eq_true_eq,
    List.dropLast, List.filter_cons, List.foldl_cons, List.foldl_nil, Nat.min_def,
    List.zipWith_cons_cons, getLastD_cons_eval, getLastD_nil_eval, List.getElem?_cons_zero,
    List.getElem?_cons_succ, Option.getD_some, Option.getD_none, abs_le, List.cons_ne_nil,
    List.range_succ, List.range_zero, Function.comp, List.find?, List.all_cons, List.all_nil,
    Bool.and_eq_true, Bool.or_eq_true, Bool.not_eq_true',
    -List.getLastD_eq_getLast?]
  all_goals rfl

theorem c6input_entering :
    selectEntering (initState [[1],[1/10^10]] [1,1] [1]).zrow = some 0 := by
  norm_num [simplex_max, simplex_max_count, validate, initState, simplexLoop,
    simplexLoopCount, loopStep, selectEntering, enteringCandidates, selectLeaving,
    ratiosOf, eligiblesOf, argmin_with_ties, argminAux, beatsBest, doPivot, normRow,
    elimRow, extractX, approx_zero, eps, zeps, dot, specLeavingRow,
    List.enum, List.enumFrom_cons, List.min?, List.replicate_succ, List.set_cons_zero,
    List.set_cons_succ, List.getD_cons_zero, List.getD_cons_succ, decide_eq_true_eq,
    List.dropLast, List.filter_cons, List.foldl_cons, List.foldl_nil, Nat.min_def,
    List.zipWith_cons_cons, getLastD_cons_eval, getLastD_nil_eval, List.getElem?_cons_zero,
    List.getElem?_cons_succ, Option.getD_some, Option.getD_none, abs_le, List.cons_ne_nil,
    List.range_succ, List.range_zero, Function.comp, List.find?, List.all_cons, List.all_nil,
    Bool.and_eq_true, Bool.or_eq_true, Bool.not_eq_true',
    -List.getLastD_eq_getLast?]
  all_goals rfl

theorem c6input_leaving :
    selectLeaving (initState [[1],[1/10^10]] [1,1] [1]).rows 0 = some 0 := by
  norm_num [simplex_max, simplex_max_count, validate, initState, simplexLoop,
    simplexLoopCount, loopStep, selectEntering, enteringCandidates, selectLeaving,
    ratiosOf, eligiblesOf, argmin_with_ties, argminAux, beatsBest, doPivot, normRow,
    elimRow, extractX, approx_zero, eps, zeps, dot, specLeavingRow,
    List.enum, List.enumFrom_cons, List.min?, List.replicate_succ, List.set_cons_zero,
    List.set_cons_succ, List.getD_cons_zero, List.getD_cons_succ, decide_eq_true_eq,
    List.dropLast, List.filter_cons, List.foldl_cons, List.foldl_nil, Nat.min_def,
    List.zipWith_cons_cons, getLastD_cons_eval, getLastD_nil_eval, List.getElem?_cons_zero,
    List.getElem?_cons_succ, Option.getD_some, Option.getD_none, abs_le, List.cons_ne_nil,
    List.range_succ, List.range_zero, Function.comp, List.find?, List.all_cons, List.all_nil,
    Bool.and_eq_true, Bool.or_eq_true, Bool.not_eq_true',
    -List.getLastD_eq_getLast?]
  all_goals rfl

theorem c6input_step :
    loopStep 1 (initState [[1],[1/10^10]] [1,1] [1]) =
      .next ⟨[[1,1,0,1],[1/10^10,0,1,1]], [0,1,0,1], [0,2], 1⟩ := by
  norm_num [simplex_max, simplex_max_count, validate, initState, simplexLoop,
    simplexLoopCount, loopStep, selectEntering, enteringCandidates, selectLeaving,
    ratiosOf, eligiblesOf, argmin_with_ties, argminAux, beatsBest, doPivot, normRow,
    elimRow, extractX, approx_zero, eps, zeps, dot, specLeavingRow,
    List.enum, List.enumFrom_cons, List.min?, List.replicate_succ, List.set_cons_zero,
    List.set_cons_succ, List.getD_cons_zero, List.getD_cons_succ, decide_eq_true_eq,
    List.dropLast, List.filter_cons, List.foldl_cons, List.foldl_nil, Nat.min_def,
    List.zipWith_cons_cons, getLastD_cons_eval, getLastD_nil_eval, List.getElem?_cons_zero,
    List.getElem?_cons_succ, Option.getD_some, Option.getD_none, abs_le, List.cons_ne_nil,
    List.range_succ, List.range_zero, Function.comp, List.find?, List.all_cons, List.all_nil,
    Bool.and_eq_true, Bool.or_eq_true, Bool.not_eq_true',
    -List.getLastD_eq_getLast?]
  all_goals rfl

theorem validate_ragged_eq :
    validate [[1,1],[1]] [8,8] [1,1] =
      some ⟨"infeasible", none, none, 0, "Filas de A con distinta longitud."⟩ := by
  norm_num [simplex_max, simplex_max_count, validate, initState, simplexLoop,
    simplexLoopCount, loopStep, selectEntering, enteringCandidates, selectLeaving,
    ratiosOf, eligiblesOf, argmin_with_ties, argminAux, beatsBest, doPivot, normRow,
    elimRow, extractX, approx_zero, eps, zeps, dot, specLeavingRow,
    List.enum, List.enumFrom_cons, List.min?, List.replicate_succ, List.set_cons_zero,
    List.set_cons_succ, List.getD_cons_zero, List.getD_cons_succ, decide_eq_true_eq,
    List.dropLast, List.filter_cons, List.foldl_cons, List.foldl_nil, Nat.min_def,
    List.zipWith_cons_cons, getLastD_cons_eval, getLastD_nil_eval, List.getElem?_cons_zero,
    List.getElem?_cons_succ, Option.getD_some, Option.getD_none, abs_le, List.cons_ne_nil,
    List.range_succ, List.range_zero, Function.comp, List.find?, List.all_cons, List.all_nil,
    Bool.and_eq_true, Bool.or_eq_true, Bool.not_eq_true',
    -List.getLastD_eq_getLast?]
  all_goals rfl

theorem validate_smallc_none : validate [[1]] [1] [0] = none := by
  norm_num [simplex_max, simplex_max_count, validate, initState, simplexLoop,
    simplexLoopCount, loopStep, selectEntering, enteringCandidates, selectLeaving,
    ratiosOf, eligiblesOf, argmin_with_ties, argminAux, beatsBest, doPivot, normRow,
    elimRow, extractX, approx_zero, eps, zeps, dot, specLeavingRow,
    List.enum, List.enumFrom_cons, List.min?, List.replicate_succ, List.set_cons_zero,
    List.set_cons_succ, List.getD_cons_zero, List.getD_cons_succ, decide_eq_true_eq,
    List.dropLast, List.filter_cons, List.foldl_cons, List.foldl_nil, Nat.min_def,
    List.zipWith_cons_cons, getLastD_cons_eval, getLastD_nil_eval, List.getElem?_cons_zero,
    List.getElem?_cons_succ, Option.getD_some, Option.getD_none, abs_le, List.cons_ne_nil,
    List.range_succ, List.range_zero, Function.comp, List.find?, List.all_cons, List.all_nil,
    Bool.and_eq_true, Bool.or_eq_true, Bool.not_eq_true',
    -List.getLastD_eq_getLast?]
  all_goals rfl

theorem smallc_run :
    simplex_max [[1]] [1] [0] false 1 =
      some ⟨"optimal", some 0, some [0], 1, "Óptimo encontrado."⟩ := by
  norm_num [simplex_max, simplex_max_count, validate, initState, simplexLoop,
    simplexLoopCount, loopStep, selectEntering, enteringCandidates, selectLeaving,
    ratiosOf, eligiblesOf, argmin_with_ties, argminAux, beatsBest, doPivot, normRow,
    elimRow, extractX, approx_zero, eps, zeps, dot, specLeavingRow,
    List.enum, List.enumFrom_cons, List.min?, List.replicate_succ, List.set_cons_zero,
    List.set_cons_succ, List.getD_cons_zero, List.getD_cons_succ, decide_eq_true_eq,
    List.dropLast, List.filter_cons, List.foldl_cons, List.foldl_nil, Nat.min_def,
    List.zipWith_cons_cons, getLastD_cons_eval, getLastD_nil_eval, List.getElem?_cons_zero,
    List.getElem?_cons_succ, Option.getD_some, Option.getD_none, abs_le, List.cons_ne_nil,
    List.range_succ, List.range_zero, Function.comp, List.find?, List.all_cons, List.all_nil,
    Bool.and_eq_true, Bool.or_eq_true, Bool.not_eq_true',
    -List.getLastD_eq_getLast?]
  all_goals rfl

/-! ### Claim theorems -/

/-- C5: for every input `A, b, c` that violates a shape or sign check
(empty matrix, ragged rows of `A`, `length b ≠ m`, `length c ≠ n`, or some
`bᵢ < -ε`), `simplex_max` returns, for every fuel and trace flag, exactly
the result produced by the validator — a non-Optimal (`"infeasible"`)
status with iteration count `0`, no `z*`/`x*`, and a message identifying
the failed check; the loop (and hence the tableau construction) is never
reached. -/
theorem c5_validation (A : Mat) (b c : List ℚ)
    (h : A = [] ∨ A.headD [] = [] ∨
      (∃ row ∈ A, row.length ≠ (A.headD []).length) ∨
      b.length ≠ A.length ∨ c.length ≠ (A.headD []).length ∨ (∃ bi ∈ b, bi < -eps)) :
    ∃ r, validate A b c = some r ∧
      (∀ (s : Bool) (fuel : ℕ), simplex_max A b c s fuel = some r) ∧
      r.status = "infeasible" ∧ r.status ≠ "optimal" ∧ r.iterations = 0 ∧
      r.z_opt = none ∧ r.x_opt = none ∧
      (r.message = "Matrices vacías." ∨
       r.message = "Filas de A con distinta longitud." ∨
       r.message = "Dimensión de b no coincide con A." ∨
       r.message = "Dimensión de c no coincide con A." ∨
       r.message = "Este solver asume b >= 0 para base de holguras factible.") := by
  by_cases h1 : A = [] ∨ A.headD [] = []
  · have hval : validate A b c =
        some ⟨"infeasible", none, none, 0, "Matrices vacías."⟩ := by
      unfold validate
      rw [if_pos h1]
    exact ⟨_, hval, fun s fuel => simplex_max_of_validate_some A b c _ hval s fuel,
      rfl, by decide, rfl, rfl, rfl, Or.inl rfl⟩
  · by_cases h2 : A.any (fun row => row.length ≠ (A.headD []).length) = true
    · have hval : validate A b c =
          some ⟨"infeasible", none, none, 0, "Filas de A con distinta longitud."⟩ := by
        unfold validate
        rw [if_neg h1, if_pos h2]
      exact ⟨_, hval, fun s fuel => simplex_max_of_validate_some A b c _ hval s fuel,
        rfl, by decide, rfl, rfl, rfl, Or.inr (Or.inl rfl)⟩
    · by_cases h3 : b.length ≠ A.length
      · have hval : validate A b c =
            some ⟨"infeasible", none, none, 0, "Dimensión de b no coincide con A."⟩ := by
          unfold validate
          rw [if_neg h1, if_neg h2, if_pos h3]
        exact ⟨_, hval, fun s fuel => simplex_max_of_validate_some A b c _ hval s fuel,
          rfl, by decide, rfl, rfl, rfl, Or.inr (Or.inr (Or.inl rfl))⟩
      · by_cases h4 : c.length ≠ (A.headD []).length
        · have hval : validate A b c =
              some ⟨"infeasible", none, none, 0,
                "Dimensión de c no coincide con A."⟩ := by
            unfold validate
            rw [if_neg h1, if_neg h2, if_neg h3, if_pos h4]
          exact ⟨_, hval, fun s fuel => simplex_max_of_validate_some A b c _ hval s fuel,
            rfl, by decide, rfl, rfl, rfl, Or.inr (Or.inr (Or.inr (Or.inl rfl)))⟩
        · by_cases h5 : b.any (fun bi => decide (bi < -eps)) = true
          · have hval : validate A b c =
                some ⟨"infeasible", none, none, 0,
                  "Este solver asume b >= 0 para base de holguras factible."⟩ := by
              unfold validate
              rw [if_neg h1, if_neg h2, if_neg h3, if_neg h4, if_pos h5]
            exact ⟨_, hval, fun s fuel => simplex_max_of_validate_some A b c _ hval s fuel,
              rfl, by decide, rfl, rfl, rfl, Or.inr (Or.inr (Or.inr (Or.inr rfl)))⟩
          · exfalso
            rcases h with h | h | h | h | h | h
            · exact h1 (Or.inl h)
            · exact h1 (Or.inr h)
            · obtain ⟨row, hrow, hne⟩ := h
              exact h2 (List.any_eq_true.mpr ⟨row, hrow, by simpa using hne⟩)
            · exact h3 h
            · exact h4 h
            · obtain ⟨bi, hbi, hlt⟩ := h
              exact h5 (List.any_eq_true.mpr ⟨bi, hbi, by simpa using hlt⟩)

/-- Witness for C5 at Scenario C (negative right-hand side). -/
theorem c5_witness :
    ∃ r, validate [[1,1]] [-5] [1,1] = some r ∧
      (∀ (s : Bool) (fuel : ℕ), simplex_max [[1,1]] [-5] [1,1] s fuel = some r) ∧
      r.status = "infeasible" ∧ r.status ≠ "optimal" ∧ r.iterations = 0 ∧
      r.z_opt = none ∧ r.x_opt = none ∧
      (r.message = "Matrices vacías." ∨
       r.message = "Filas de A con distinta longitud." ∨
       r.message = "Dimensión de b no coincide con A." ∨
       r.message = "Dimensión de c no coincide con A." ∨
       r.message = "Este solver asume b >= 0 para base de holguras factible.") :=
  c5_validation [[1,1]] [-5] [1,1]
    (Or.inr (Or.inr (Or.inr (Or.inr (Or.inr
      ⟨-5, List.mem_singleton.mpr rfl, by norm_num [eps]⟩)))))

/-- C1: Scenario A — for `A = [[2,1],[1,2]]`, `b = [8,8]`, `c = [3,5]`
the solver returns status Optimal with `z* = 64/3` and
`x* = [8/3, 8/3]` (exactly, hence within any tolerance); the run takes
3 loop iterations. -/
theorem c1_scenario_bounded :
    simplex_max [[2,1],[1,2]] [8,8] [3,5] false 3 =
      some ⟨"optimal", some (64/3), some [8/3, 8/3], 3, "Óptimo encontrado."⟩ :=
  scenarioA_run

/-- C2 (amended): whenever `simplex_max` terminates with status Optimal,
the final objective row (witnessed by the terminating loop state) has
every non-RHS entry `≥ -ε`.  The second half of the original claim —
that `cᵀx*` equals the returned `z*` within ε — is false in general (see
the counterexample): an elimination skipped by the `1e-9` `approx_zero`
test can leave the extracted `x*` and `z*` inconsistent by more than ε. -/
theorem c2_optimal_certificate (A : Mat) (b c : List ℚ) (s : Bool) (fuel : ℕ)
    (r : SimplexResult) (h : simplex_max A b c s fuel = some r)
    (hopt : r.status = "optimal") :
    ∃ st2, loopStep (A.headD []).length st2 = .done r ∧
      ∀ j < st2.zrow.length - 1, -eps ≤ st2.zrow.getD j 0 := by
  cases hv : validate A b c with
  | some r0 =>
      rw [simplex_max_of_validate_some A b c r0 hv s fuel] at h
      have h2 : r0 = r := Option.some.inj h
      subst h2
      have h3 := (validate_some_status A b c r0 hv).1
      rw [h3] at hopt
      exact absurd hopt (by with_unfolding_all decide)
  | none =>
      rw [simplex_max_of_validate_none A b c hv s fuel] at h
      obtain ⟨st2, h2⟩ := simplexLoop_done _ _ fuel r h
      refine ⟨st2, h2, ?_⟩
      have h3 := loopStep_done_optimal_entering _ st2 r h2 hopt
      rw [selectEntering_eq_none] at h3
      intro j hj
      exact not_lt.mp (h3 j hj)

/-- Witness for C2 at Scenario A. -/
theorem c2_witness :
    ∃ st2, loopStep 2 st2 =
        .done ⟨"optimal", some (64/3), some [8/3, 8/3], 3, "Óptimo encontrado."⟩ ∧
      ∀ j < st2.zrow.length - 1, -eps ≤ st2.zrow.getD j 0 :=
  c2_optimal_certificate [[2,1],[1,2]] [8,8] [3,5] false 3
    ⟨"optimal", some (64/3), some [8/3, 8/3], 3, "Óptimo encontrado."⟩ scenarioA_run rfl

/-- Counterexample to C2 as stated: on `A = [[1, 1e-10, 1],[0,1,0]]`,
`b = [1,1000]`, `c = [1,1,1]` the solver terminates Optimal with
`x* = [1,1000,0]` and `z* = 1001 - 1e-7`, yet `cᵀx* = 1001`: the gap is
`1e-7`, larger than ε = 1e-12 (and even than the 1e-9 `approx_zero`
tolerance), because the elimination of the factor `1e-10` was skipped. -/
theorem c2_counterexample :
    simplex_max [[1, 1/10^10, 1],[0,1,0]] [1,1000] [1,1,1] false 3 =
      some ⟨"optimal", some (10009999999/10000000), some [1,1000,0], 3,
        "Óptimo encontrado."⟩ ∧
    dot [1,1,1] [1,1000,0] = 1001 ∧
    ¬(|dot [1,1,1] [1,1000,0] - (10009999999/10000000 : ℚ)| ≤ eps) ∧
    ¬(|dot [1,1,1] [1,1000,0] - (10009999999/10000000 : ℚ)| ≤ zeps) := by
  norm_num [simplex_max, simplex_max_count, validate, initState, simplexLoop,
    simplexLoopCount, loopStep, selectEntering, enteringCandidates, selectLeaving,
    ratiosOf, eligiblesOf, argmin_with_ties, argminAux, beatsBest, doPivot, normRow,
    elimRow, extractX, approx_zero, eps, zeps, dot, specLeavingRow,
    List.enum, List.enumFrom_cons, List.min?, List.replicate_succ, List.set_cons_zero,
    List.set_cons_succ, List.getD_cons_zero, List.getD_cons_succ, decide_eq_true_eq,
    List.dropLast, List.filter_cons, List.foldl_cons, List.foldl_nil, Nat.min_def,
    List.zipWith_cons_cons, getLastD_cons_eval, getLastD_nil_eval, List.getElem?_cons_zero,
    List.getElem?_cons_succ, Option.getD_some, Option.getD_none, abs_le, List.cons_ne_nil,
    List.range_succ, List.range_zero, Function.comp, List.find?, List.all_cons, List.all_nil,
    Bool.and_eq_true, Bool.or_eq_true, Bool.not_eq_true',
    -List.getLastD_eq_getLast?]
  all_goals rfl

/-- C3: (1) the entering column is `some j` exactly when `j` is the
smallest column index whose objective-row entry is `< -ε` (Bland's
rule); (2) when no such column exists the loop step terminates with
status Optimal, `z*` read from the RHS of the objective row, and `x*`
of length `n` satisfying `x*[basis[i]] = RHS(i)` for every row `i` whose
basic variable is an original variable, all non-basic components `0`
(stated for a duplicate-free basis, which the slack initialization
provides). -/
theorem c3_entering_and_extraction :
    (∀ (z : Vec) (j : ℕ), selectEntering z = some j ↔
      (j < z.length - 1 ∧ z.getD j 0 < -eps ∧ ∀ k < j, ¬(z.getD k 0 < -eps))) ∧
    (∀ (n : ℕ) (st : LoopState), selectEntering st.zrow = none → st.basis.Nodup →
      loopStep n st = .done ⟨"optimal", some (st.zrow.getLastD 0),
        some (extractX n st.rows st.basis), st.iterations + 1, "Óptimo encontrado."⟩ ∧
      (extractX n st.rows st.basis).length = n ∧
      (∀ i < st.basis.length, st.basis.getD i 0 < n →
        (extractX n st.rows st.basis).getD (st.basis.getD i 0) 0 =
          (st.rows.getD i []).getLastD 0) ∧
      (∀ v, v ∉ st.basis → (extractX n st.rows st.basis).getD v 0 = 0)) := by
  constructor
  · exact selectEntering_eq_some
  · intro n st hse hnd
    refine ⟨loopStep_optimal n st hse, extractX_length n st.rows st.basis, ?_, ?_⟩
    · intro i hi hb
      exact extractX_getD_basic n st.rows st.basis hnd i hi hb
    · intro v hv
      exact extractX_getD_nonbasic n st.rows st.basis v hv

/-- Witness for C3 at the terminal state of Scenario A. -/
theorem c3_witness :
    (selectEntering [-(3:ℚ),-5,0,0,0] = some 0 ↔
      (0 < ([-(3:ℚ),-5,0,0,0] : Vec).length - 1 ∧
       ([-(3:ℚ),-5,0,0,0] : Vec).getD 0 0 < -eps ∧
       ∀ k < 0, ¬(([-(3:ℚ),-5,0,0,0] : Vec).getD k 0 < -eps))) ∧
    (loopStep 2 ⟨[[1,0,2/3,-1/3,8/3],[0,1,-1/3,2/3,8/3]], [0,0,1/3,7/3,64/3], [0,1], 2⟩ =
        .done ⟨"optimal", some (([0,0,1/3,7/3,64/3] : Vec).getLastD 0),
          some (extractX 2 [[1,0,2/3,-1/3,8/3],[0,1,-1/3,2/3,8/3]] [0,1]), 2 + 1,
          "Óptimo encontrado."⟩ ∧
      (extractX 2 [[1,0,2/3,-1/3,8/3],[0,1,-1/3,2/3,8/3]] [0,1]).length = 2 ∧
      (∀ i < ([0,1] : List ℕ).length, ([0,1] : List ℕ).getD i 0 < 2 →
        (extractX 2 [[1,0,2/3,-1/3,8/3],[0,1,-1/3,2/3,8/3]] [0,1]).getD
            (([0,1] : List ℕ).getD i 0) 0 =
          (([[1,0,2/3,-1/3,8/3],[0,1,-1/3,2/3,8/3]] : Mat).getD i []).getLastD 0) ∧
      (∀ v, v ∉ ([0,1] : List ℕ) →
        (extractX 2 [[1,0,2/3,-1/3,8/3],[0,1,-1/3,2/3,8/3]] [0,1]).getD v 0 = 0)) :=
  ⟨c3_entering_and_extraction.1 [-(3:ℚ),-5,0,0,0] 0,
   c3_entering_and_extraction.2 2
     ⟨[[1,0,2/3,-1/3,8/3],[0,1,-1/3,2/3,8/3]], [0,0,1/3,7/3,64/3], [0,1], 2⟩
     scenarioA_final_entering (by decide)⟩

/-- C4 (amended): a constraint row is eligible iff its entry in the
entering column is `> ε`; when `argmin_with_ties` selects a leaving row
it is eligible, its ratio is *strictly* smaller than the ratio of every
earlier eligible row and within ε of the ratio of every later eligible
row (so exact ties go to the earliest row, but the selected row need not
carry the exact minimum — a later ratio may undercut it by up to ε, and
an earlier row within ε of the minimum may be passed over, see the
counterexample); when no row is eligible the loop step terminates
immediately with status Unbounded. -/
theorem c4_leaving_rule :
    (∀ (rows : Mat) (e i : ℕ), i < rows.length →
      ((eligiblesOf rows e).getD i false = true ↔ (rows.getD i []).getD e 0 > eps)) ∧
    (∀ (rows : Mat) (e i : ℕ), selectLeaving rows e = some i →
      i < rows.length ∧ (rows.getD i []).getD e 0 > eps ∧
      (ratiosOf rows e).getD i 0 =
        (rows.getD i []).getLastD 0 / (rows.getD i []).getD e 0 ∧
      ∀ j, j < rows.length → (rows.getD j []).getD e 0 > eps →
        (j < i → (ratiosOf rows e).getD i 0 < (ratiosOf rows e).getD j 0) ∧
        (ratiosOf rows e).getD i 0 ≤ (ratiosOf rows e).getD j 0 + eps) ∧
    (∀ (n : ℕ) (st : LoopState) (e : ℕ), selectEntering st.zrow = some e →
      selectLeaving st.rows e = none →
      loopStep n st = .done ⟨"unbounded", none, none, st.iterations + 1,
        "La función objetivo puede crecer indefinidamente (no acotado)."⟩) := by
  refine ⟨?_, ?_, ?_⟩
  · intro rows e i hi
    rw [eligiblesOf_getD rows e i hi]
    exact ⟨of_decide_eq_true, decide_eq_true⟩
  · intro rows e i h
    obtain ⟨h1, h2, h3⟩ := selectLeaving_spec rows e i h
    exact ⟨h1, h2, ratiosOf_getD rows e i h1 h2, h3⟩
  · intro n st e h1 h2
    exact loopStep_unbounded n st e h1 h2

/-- Witness for C4: the eligibility test, the leaving choice of the
first pivot of Scenario A, and the Unbounded exit of Scenario B. -/
theorem c4_witness :
    ((eligiblesOf [[2,1,1,0,8],[1,2,0,1,8]] 0).getD 0 false = true ↔
      (([[2,1,1,0,8],[1,2,0,1,8]] : Mat).getD 0 []).getD 0 0 > eps) ∧
    (0 < ([[2,1,1,0,8],[1,2,0,1,8]] : Mat).length ∧
      (([[2,1,1,0,8],[1,2,0,1,8]] : Mat).getD 0 []).getD 0 0 > eps ∧
      (ratiosOf [[2,1,1,0,8],[1,2,0,1,8]] 0).getD 0 0 =
        (([[2,1,1,0,8],[1,2,0,1,8]] : Mat).getD 0 []).getLastD 0 /
          (([[2,1,1,0,8],[1,2,0,1,8]] : Mat).getD 0 []).getD 0 0 ∧
      ∀ j, j < ([[2,1,1,0,8],[1,2,0,1,8]] : Mat).length →
        (([[2,1,1,0,8],[1,2,0,1,8]] : Mat).getD j []).getD 0 0 > eps →
        (j < 0 → (ratiosOf [[2,1,1,0,8],[1,2,0,1,8]] 0).getD 0 0 <
          (ratiosOf [[2,1,1,0,8],[1,2,0,1,8]] 0).getD j 0) ∧
        (ratiosOf [[2,1,1,0,8],[1,2,0,1,8]] 0).getD 0 0 ≤
          (ratiosOf [[2,1,1,0,8],[1,2,0,1,8]] 0).getD j 0 + eps) ∧
    loopStep 2 ⟨[[1,-1,1,10]], [0,-2,1,10], [0], 1⟩ =
      .done ⟨"unbounded", none, none, 1 + 1,
        "La función objetivo puede crecer indefinidamente (no acotado)."⟩ :=
  ⟨c4_leaving_rule.1 [[2,1,1,0,8],[1,2,0,1,8]] 0 0 (by norm_num),
   c4_leaving_rule.2.1 [[2,1,1,0,8],[1,2,0,1,8]] 0 0 scenarioA_first_leaving,
   c4_leaving_rule.2.2 2 ⟨[[1,-1,1,10]], [0,-2,1,10], [0], 1⟩ 1 scenarioB_second_entering
     scenarioB_second_leaving⟩

/-- Counterexample to C4 as stated: in the first iteration on
`A = [[1],[1],[1]]`, `b = [1.5e-12, 1e-12, 0]`, `c = [1]` the code
selects leaving row 2, while the spec's rule (smallest ratio, first row
winning ties within ε) selects row 1 — rows 1 and 2 tie within ε and
row 1 comes first; and on `A = [[1],[1]]`, `b = [1e-12, 0]`, `c = [1]`
the code selects row 0 even though eligible row 1 has a strictly smaller
ratio, so the selected row does not carry the smallest ratio at all. -/
theorem c4_counterexample :
    selectLeaving (initState [[1],[1],[1]] [3/(2*10^12), 1/10^12, 0] [1]).rows 0 =
      some 2 ∧
    specLeavingRow (ratiosOf (initState [[1],[1],[1]] [3/(2*10^12), 1/10^12, 0] [1]).rows 0)
      (eligiblesOf (initState [[1],[1],[1]] [3/(2*10^12), 1/10^12, 0] [1]).rows 0) =
      some 1 ∧
    selectEntering (initState [[1],[1],[1]] [3/(2*10^12), 1/10^12, 0] [1]).zrow = some 0 ∧
    selectLeaving (initState [[1],[1]] [1/10^12, 0] [1]).rows 0 = some 0 ∧
    (ratiosOf (initState [[1],[1]] [1/10^12, 0] [1]).rows 0).getD 1 0 <
      (ratiosOf (initState [[1],[1]] [1/10^12, 0] [1]).rows 0).getD 0 0 ∧
    (eligiblesOf (initState [[1],[1]] [1/10^12, 0] [1]).rows 0).getD 1 false = true := by
  norm_num [simplex_max, simplex_max_count, validate, initState, simplexLoop,
    simplexLoopCount, loopStep, selectEntering, enteringCandidates, selectLeaving,
    ratiosOf, eligiblesOf, argmin_with_ties, argminAux, beatsBest, doPivot, normRow,
    elimRow, extractX, approx_zero, eps, zeps, dot, specLeavingRow,
    List.enum, List.enumFrom_cons, List.min?, List.replicate_succ, List.set_cons_zero,
    List.set_cons_succ, List.getD_cons_zero, List.getD_cons_succ, decide_eq_true_eq,
    List.dropLast, List.filter_cons, List.foldl_cons, List.foldl_nil, Nat.min_def,
    List.zipWith_cons_cons, getLastD_cons_eval, getLastD_nil_eval, List.getElem?_cons_zero,
    List.getElem?_cons_succ, Option.getD_some, Option.getD_none, abs_le, List.cons_ne_nil,
    List.range_succ, List.range_zero, Function.comp, List.find?, List.all_cons, List.all_nil,
    Bool.and_eq_true, Bool.or_eq_true, Bool.not_eq_true',
    -List.getLastD_eq_getLast?]
  all_goals rfl

/-- Witness for C6: the first pivot on `A = [[1],[1e-10]]`, `b = [1,1]`,
`c = [1]`, where the factor `1e-10` is skipped by `approx_zero`. -/
theorem c6_witness :
    colIsUnitExact (initState [[1],[1/10^10]] [1,1] [1]) ∧
    (((⟨[[1,1,0,1],[1/10^10,0,1,1]], [0,1,0,1], [0,2], 1⟩ : LoopState).rows =
        (doPivot (initState [[1],[1/10^10]] [1,1] [1]) 0 0).rows) ∧
      ((⟨[[1,1,0,1],[1/10^10,0,1,1]], [0,1,0,1], [0,2], 1⟩ : LoopState).zrow =
        (doPivot (initState [[1],[1/10^10]] [1,1] [1]) 0 0).zrow) ∧
      ((⟨[[1,1,0,1],[1/10^10,0,1,1]], [0,1,0,1], [0,2], 1⟩ : LoopState).basis =
        (initState [[1],[1/10^10]] [1,1] [1]).basis.set 0 0) ∧
      colIsUnitNear ⟨[[1,1,0,1],[1/10^10,0,1,1]], [0,1,0,1], [0,2], 1⟩) :=
  ⟨by decide,
   doPivot_colIsUnitNear 4 1 (initState [[1],[1/10^10]] [1,1] [1])
     ⟨[[1,1,0,1],[1/10^10,0,1,1]], [0,1,0,1], [0,2], 1⟩ 0 0
     (by decide) (by decide) c6input_entering c6input_leaving c6input_step⟩

/-- Counterexample to C6 as stated: after the first pivot on
`A = [[1],[1e-10]]`, `b = [1,1]`, `c = [1]` the basic variable of row 0
is column 0, but that column still holds `1e-10 ≠ 0` in row 1 — not a
unit vector under exact arithmetic, and not within the ε = 1e-12
tolerance either, because the elimination was skipped
(`approx_zero(1e-10)` with its `1e-9` threshold). -/
theorem c6_counterexample :
    loopStep 1 (initState [[1],[1/10^10]] [1,1] [1]) =
      .next ⟨[[1,1,0,1],[1/10^10,0,1,1]], [0,1,0,1], [0,2], 1⟩ ∧
    (⟨[[1,1,0,1],[1/10^10,0,1,1]], [0,1,0,1], [0,2], 1⟩ : LoopState).basis.getD 0 0 = 0 ∧
    ((⟨[[1,1,0,1],[1/10^10,0,1,1]], [0,1,0,1], [0,2], 1⟩ : LoopState).rows.getD 1 []).getD
      0 0 = 1/10^10 ∧
    ¬((1/10^10 : ℚ) = 0) ∧ ¬(|(1/10^10 : ℚ)| ≤ eps) := by
  refine ⟨c6input_step, rfl, rfl, ?_, ?_⟩ <;> norm_num [eps, abs_le]

/-- C7 (amended): on Scenario B (`A = [[1,-1]]`, `b = [10]`,
`c = [1,1]`) the solver returns status Unbounded after exactly one
pivot (x₁ entering first by Bland's rule), but the reported iteration
count is 2, not 1: the counter is incremented at the *top* of each loop
iteration, before pivot selection, so it equals pivots + 1. -/
theorem c7_amended :
    simplex_max_count [[1,-1]] [10] [1,1] false 5 =
      some (⟨"unbounded", none, none, 2,
        "La función objetivo puede crecer indefinidamente (no acotado)."⟩, 1) ∧
    selectEntering (initState [[1,-1]] [10] [1,1]).zrow = some 0 :=
  ⟨scenarioB_run_count, scenarioB_first_entering⟩

/-- Counterexample to C7 as stated: the Scenario B run reports an
iteration count of 2, not 1. -/
theorem c7_counterexample :
    simplex_max [[1,-1]] [10] [1,1] false 5 =
      some ⟨"unbounded", none, none, 2,
        "La función objetivo puede crecer indefinidamente (no acotado)."⟩ ∧
    (2 : ℕ) ≠ 1 := by
  refine ⟨?_, by decide⟩
  norm_num [simplex_max, simplex_max_count, validate, initState, simplexLoop,
    simplexLoopCount, loopStep, selectEntering, enteringCandidates, selectLeaving,
    ratiosOf, eligiblesOf, argmin_with_ties, argminAux, beatsBest, doPivot, normRow,
    elimRow, extractX, approx_zero, eps, zeps, dot, specLeavingRow,
    List.enum, List.enumFrom_cons, List.min?, List.replicate_succ, List.set_cons_zero,
    List.set_cons_succ, List.getD_cons_zero, List.getD_cons_succ, decide_eq_true_eq,
    List.dropLast, List.filter_cons, List.foldl_cons, List.foldl_nil, Nat.min_def,
    List.zipWith_cons_cons, getLastD_cons_eval, getLastD_nil_eval, List.getElem?_cons_zero,
    List.getElem?_cons_succ, Option.getD_some, Option.getD_none, abs_le, List.cons_ne_nil,
    List.range_succ, List.range_zero, Function.comp, List.find?, List.all_cons, List.all_nil,
    Bool.and_eq_true, Bool.or_eq_true, Bool.not_eq_true',
    -List.getLastD_eq_getLast?]
  all_goals rfl

/-- C8 (amended): on the ragged input `A = [[1,1],[1]]`, `b = [8,8]`,
`c = [1,1]` the solver returns (for every fuel and trace flag) the
validator's result: the combined `"infeasible"` status — the code's
single encoding of Malformed/Infeasible — with 0 iterations and the
message `"Filas de A con distinta longitud."` identifying the ragged
row; structural problems are distinguished from sign problems only by
the message, not by a distinct status. -/
theorem c8_amended :
    validate [[1,1],[1]] [8,8] [1,1] =
      some ⟨"infeasible", none, none, 0, "Filas de A con distinta longitud."⟩ ∧
    (∀ (s : Bool) (fuel : ℕ), simplex_max [[1,1],[1]] [8,8] [1,1] s fuel =
      some ⟨"infeasible", none, none, 0, "Filas de A con distinta longitud."⟩) ∧
    "Filas de A con distinta longitud." ≠
      "Este solver asume b >= 0 para base de holguras factible." := by
  refine ⟨validate_ragged_eq, ?_, by decide⟩
  intro s fuel
  exact simplex_max_of_validate_some [[1,1],[1]] [8,8] [1,1] _ validate_ragged_eq s fuel

/-- Counterexample to C8 as stated: the ragged input produces status
`"infeasible"`, not a distinct `"malformed"` status — it is the same
status string the sign check produces. -/
theorem c8_counterexample :
    simplex_max [[1,1],[1]] [8,8] [1,1] false 1 =
      some ⟨"infeasible", none, none, 0, "Filas de A con distinta longitud."⟩ ∧
    "infeasible" ≠ "malformed" ∧ "infeasible" ≠ "Malformed" ∧
    simplex_max [[1,1]] [-5] [1,1] false 1 =
      some ⟨"infeasible", none, none, 0,
        "Este solver asume b >= 0 para base de holguras factible."⟩ := by
  refine ⟨?_, by decide, by decide, ?_⟩ <;>
  norm_num [simplex_max, simplex_max_count, validate, initState, simplexLoop,
    simplexLoopCount, loopStep, selectEntering, enteringCandidates, selectLeaving,
    ratiosOf, eligiblesOf, argmin_with_ties, argminAux, beatsBest, doPivot, normRow,
    elimRow, extractX, approx_zero, eps, zeps, dot, specLeavingRow,
    List.enum, List.enumFrom_cons, List.min?, List.replicate_succ, List.set_cons_zero,
    List.set_cons_succ, List.getD_cons_zero, List.getD_cons_succ, decide_eq_true_eq,
    List.dropLast, List.filter_cons, List.foldl_cons, List.foldl_nil, Nat.min_def,
    List.zipWith_cons_cons, getLastD_cons_eval, getLastD_nil_eval, List.getElem?_cons_zero,
    List.getElem?_cons_succ, Option.getD_some, Option.getD_none, abs_le, List.cons_ne_nil,
    List.range_succ, List.range_zero, Function.comp, List.find?, List.all_cons, List.all_nil,
    Bool.and_eq_true, Bool.or_eq_true, Bool.not_eq_true',
    -List.getLastD_eq_getLast?]
  all_goals rfl

/-- C9: the `show_steps` (trace) flag only drives the `print_tableau`
diagnostics in the source and has no influence on the computed result:
both invocations return the same status, `z*`, `x*` and iteration
count for every input and fuel. -/
theorem c9_trace_independent (A : Mat) (b c : List ℚ) (fuel : ℕ) :
    simplex_max A b c true fuel = simplex_max A b c false fuel := rfl

/-- C10: for every input accepted by the validator, when `simplex_max`
terminates its iteration count equals the number of pivots performed
plus one (the counter is incremented at the top of the loop, before the
pivot), hence it is at least 1; in particular when every component of
`c` is `≤ 0` the initial tableau is already optimal and the count is
exactly 1, never 0. -/
theorem c10_iteration_count (A : Mat) (b c : List ℚ) (s : Bool) (fuel : ℕ)
    (r : SimplexResult) (hv : validate A b c = none)
    (h : simplex_max A b c s fuel = some r) :
    (∃ p, simplex_max_count A b c s fuel = some (r, p) ∧ r.iterations = p + 1) ∧
    1 ≤ r.iterations ∧ ((∀ ci ∈ c, ci ≤ 0) → r.iterations = 1) := by
  rw [simplex_max_of_validate_none A b c hv s fuel] at h
  obtain ⟨q, hq, hpq⟩ := simplexLoop_count_link _ fuel _ 0 r h
  obtain ⟨hle, hit⟩ := simplexLoopCount_spec _ fuel _ 0 r q hq
  rw [initState_iterations] at hit
  refine ⟨⟨q, ?_, by omega⟩, by omega, ?_⟩
  · rw [simplex_max_count_of_validate_none A b c hv s fuel]
    exact hq
  · intro hc
    cases fuel with
    | zero => simp [simplexLoop] at h
    | succ f =>
        rw [simplexLoop] at h
        rw [loopStep_optimal _ _ (initState_entering_none A b c hc)] at h
        cases h
        rfl

/-- Witness for C10 on `A = [[1]]`, `b = [1]`, `c = [0]`: zero pivots,
iteration count 1. -/
theorem c10_witness :
    (∃ p, simplex_max_count [[1]] [1] [0] false 1 =
        some (⟨"optimal", some 0, some [0], 1, "Óptimo encontrado."⟩, p) ∧
      (⟨"optimal", some 0, some [0], 1,
        "Óptimo encontrado."⟩ : SimplexResult).iterations = p + 1) ∧
    1 ≤ (⟨"optimal", some 0, some [0], 1,
      "Óptimo encontrado."⟩ : SimplexResult).iterations ∧
    ((∀ ci ∈ ([0] : List ℚ), ci ≤ 0) →
      (⟨"optimal", some 0, some [0], 1,
        "Óptimo encontrado."⟩ : SimplexResult).iterations = 1) :=
  c10_iteration_count [[1]] [1] [0] false 1 _ validate_smallc_none smallc_run
